import Mathlib

/-!
Verification model of the `mcp-security-report` storage engine
(`src/server/storage/index.ts` and its helpers in `src/utils/validation.ts`,
`src/utils/cvss.ts`, `src/utils/env.ts`).

The TypeScript source is shallowly embedded: the filesystem visible to the
storage manager (project index file, project directories, finding/audit
files, lock artifacts) is an explicit state record, and every storage
operation is a pure function from state to (state, result).  JavaScript
strings are `List Char` / `String`, timestamps are epoch milliseconds as
`Nat`, and the external `ae-cvss-calculator` library is an abstract
evaluator parameter (the `calculateCVSSScore` wrapper around it, including
its empty-vector guard, is embedded concretely).
-/

namespace MCPSR

/-! ## JavaScript string primitives (ASCII fragment used by the source) -/

/-- Characters matched by the JavaScript regex class `\s` (ASCII part). -/
def isJsSpace (c : Char) : Bool :=
  c == ' ' || c == '\t' || c == '\n' || c == '\r' || c == '\x0b' || c == '\x0c'

/-- Lower-casing of a character list, as JS `toLowerCase` on ASCII. -/
def lc (l : List Char) : List Char := l.map Char.toLower

/-- JS `String.prototype.trim`: drop whitespace from both ends. -/
def trimL (l : List Char) : List Char :=
  ((l.dropWhile isJsSpace).reverse.dropWhile isJsSpace).reverse

/-- Boolean list-prefix test (JS `startsWith` seen at character level). -/
def isPre : List Char → List Char → Bool
  | [], _ => true
  | _ :: _, [] => false
  | a :: p, b :: l => if a = b then isPre p l else false

/-- Whether `p` occurs as a contiguous substring of the list (JS `includes`). -/
def hasSub (p : List Char) : List Char → Bool
  | [] => isPre p []
  | c :: t => isPre p (c :: t) || hasSub p t

/-- Index of the first occurrence of `p` (JS `indexOf`, `none` = not found). -/
def firstOcc (p : List Char) : List Char → Option Nat
  | [] => if isPre p [] then some 0 else none
  | c :: t => if isPre p (c :: t) then some 0 else (firstOcc p t).map (· + 1)

/-- Shorthand for the character data of a string literal. -/
def strL (s : String) : List Char := s.data

/-! ## Body-section extraction (`getFinding`'s `extractSection` regex)

`extractSection` in the source matches
`## ${sectionName}\s*\n([\s\S]*?)(?=\n## |$)` case-insensitively and trims
the capture.  Semantics of one match attempt at a given position: the
lower-cased text must start with `## ` + the lower-cased section name; the
greedy `\s*\n` then consumes the leading whitespace run up to (and
including) its last newline; the lazy capture extends to the first later
occurrence of `"\n## "`, or to the end of the string. -/

/-- The three-character header marker `"## "`. -/
def hh : List Char := ['#', '#', ' ']

/-- The capture terminator `"\n## "` of the lookahead `(?=\n## |$)`. -/
def nlHH : List Char := ['\n', '#', '#', ' ']

/-- Kept part of the whitespace run after its last newline. -/
def afterLastNl (ws : List Char) : List Char :=
  (ws.reverse.takeWhile (fun c => if c = '\n' then false else true)).reverse

/-- Lazy capture: everything before the first `"\n## "`, else the rest. -/
def captureUntil (t : List Char) : List Char :=
  match firstOcc nlHH t with
  | some n => t.take n
  | none => t

/-- One match attempt of `\s*\n(capture)` on the text after the header. -/
def sectionTail (r : List Char) : Option (List Char) :=
  let ws := r.takeWhile isJsSpace
  if '\n' ∈ ws then some (captureUntil (afterLastNl ws ++ r.drop ws.length))
  else none

/-- One match attempt of the whole regex at the current position. -/
def tryAt (header s : List Char) : Option (List Char) :=
  if isPre header (lc s) then sectionTail (s.drop header.length) else none

/-- Leftmost-match scan of the regex over the body. -/
def extractGo (header : List Char) : List Char → Option (List Char)
  | [] => none
  | c :: t =>
    match tryAt header (c :: t) with
    | some cap => some cap
    | none => extractGo header t

/-- The source's `extractSection sectionName` on a body, result trimmed. -/
def extractSection (name : String) (body : List Char) : Option (List Char) :=
  (extractGo (hh ++ lc name.data) body).map trimL

/-! ## Finding body serialization (`createFinding` / `updateFinding`)

The body template is
`## Description\n\n${d}\n\n` + (`## Evidence\n\n${e}\n\n` when `e` is
truthy) + (`## Recommendations\n\n${r}` when `r` is truthy); the empty
string and `undefined` are both falsy. -/

/-- JS truthiness of an optional string. -/
def truthy : Option String → Bool
  | none => false
  | some s => if s = "" then false else true

/-- The markdown body written for a finding. -/
def renderFindingBody (d : String) (e r : Option String) : List Char :=
  strL "## Description\n\n" ++ d.data ++ strL "\n\n"
    ++ (if truthy e then strL "## Evidence\n\n" ++ (e.getD "").data ++ strL "\n\n" else [])
    ++ (if truthy r then strL "## Recommendations\n\n" ++ (r.getD "").data else [])

/-! ## Sanitizers (`src/utils/validation.ts`) -/

/-- Characters kept by `sanitizeProjectName` (`[^a-zA-Z0-9-_\s]` removed). -/
def keepProjChar (c : Char) : Bool :=
  c.isAlpha || c.isDigit || c == '-' || c == '_' || isJsSpace c

/-- Characters kept by the finding/audit id slug (`[^a-zA-Z0-9\s]` removed). -/
def keepIdChar (c : Char) : Bool := c.isAlpha || c.isDigit || isJsSpace c

/-- JS `replace(/\s+/g, '-')`: each maximal whitespace run becomes one dash. -/
def collapseWs : Bool → List Char → List Char
  | _, [] => []
  | prevWs, c :: t =>
    if isJsSpace c then
      if prevWs then collapseWs true t else '-' :: collapseWs true t
    else c :: collapseWs false t

/-- `sanitizeProjectName`: strip, dash runs, lower-case, trim. -/
def sanitizeProjectName (s : String) : String :=
  String.mk (trimL (lc (collapseWs false (s.data.filter keepProjChar))))

/-- The 20-character slug shared by `sanitizeFindingId`/`sanitizeAuditId`. -/
def slug20 (title : String) : List Char :=
  (lc (collapseWs false (title.data.filter keepIdChar))).take 20

/-- `sanitizeFindingId`, with the 8-hex-char random part as a parameter. -/
def sanitizeFindingId (randomHex : String) (title : String) : String :=
  String.mk (strL "FIND-" ++ randomHex.data ++ ['-'] ++ slug20 title)

/-- `sanitizeAuditId`, with the 8-hex-char random part as a parameter. -/
def sanitizeAuditId (randomHex : String) (title : String) : String :=
  String.mk (strL "AUDIT-" ++ randomHex.data ++ ['-'] ++ slug20 title)

/-! ## CVSS wrapper (`src/utils/cvss.ts`)

`calculateCVSSScore` rejects empty / whitespace-only vectors itself and
otherwise defers to the external `ae-cvss-calculator` library, abstracted
here as an evaluator `ext` returning `some score` or a rejection. -/

/-- The `calculateCVSSScore` wrapper over an abstract external evaluator. -/
def calculateCVSSScore (ext : String → Option Nat) (vector : String) : Option Nat :=
  if trimL vector.data = [] then none else ext vector

end MCPSR

namespace MCPSR

/-! ## Data model (`src/types/index.ts`) -/

/-- Project status enum (`in-progress` / `completed`). -/
inductive ProjectStatus where
  | inProgress
  | completed
deriving Repr, DecidableEq

/-- `ProjectMetadata`, timestamps as epoch milliseconds. -/
structure ProjectMetadata where
  id : String
  name : String
  client : Option String
  created : Nat
  updated : Nat
  scope : Option (List String)
  status : ProjectStatus
  description : Option String
deriving Repr, DecidableEq

/-- `CreateProjectInput`. -/
structure CreateProjectInput where
  name : String
  client : Option String
  scope : Option (List String)
  description : Option String
deriving Repr, DecidableEq

/-- `UpdateProjectInput`; `some none` is a key explicitly set to
`undefined`, `none` an absent key (object-spread semantics differ). -/
structure UpdateProjectInput where
  client : Option (Option String) := none
  scope : Option (Option (List String)) := none
  description : Option (Option String) := none
  status : Option (Option ProjectStatus) := none
deriving Repr, DecidableEq

/-- `FindingInput` as accepted by `createFinding`. -/
structure FindingInput where
  title : String
  severity : String
  cwe : Option String
  cvssString : Option String
  components : Option (List String)
  description : String
  evidence : Option String
  recommendations : Option String
deriving Repr, DecidableEq

/-- `Finding` as returned by the storage engine. -/
structure Finding where
  id : String
  title : String
  severity : String
  cwe : Option String
  cvssString : Option String
  cvssScore : Option Nat
  components : Option (List String)
  description : String
  evidence : Option String
  recommendations : Option String
  created : Nat
  updated : Nat
deriving Repr, DecidableEq

/-- `Partial<FindingInput>` for `updateFinding` (two-level options as in
`UpdateProjectInput`). -/
structure FindingUpdate where
  title : Option (Option String) := none
  severity : Option (Option String) := none
  cwe : Option (Option String) := none
  cvssString : Option (Option String) := none
  components : Option (Option (List String)) := none
  description : Option (Option String) := none
  evidence : Option (Option String) := none
  recommendations : Option (Option String) := none
deriving Repr, DecidableEq

/-- `AuditTrailInput`. -/
structure AuditTrailInput where
  title : String
  description : String
  tools : Option (List String)
  methodology : Option String
  results : Option String
  notes : Option String
deriving Repr, DecidableEq

/-- `AuditTrailEntry`. -/
structure AuditTrailEntry where
  id : String
  title : String
  description : String
  created : Nat
  tools : Option (List String)
  methodology : Option String
  results : Option String
  notes : Option String
deriving Repr, DecidableEq

/-- Error conditions raised by the storage engine (`src/types/index.ts`
error classes plus generic wrapped I/O errors). -/
inductive StorageError where
  | projectNotFound (name : String)
  | projectExists (name : String)
  | findingNotFound (fid : String)
  | auditNotFound (aid : String)
  | projectCompleted (name operation : String)
  | invalidCvss (vector : String)
  | findingExists (fid : String)
  | auditExists (aid : String)
  | corruption (msg : String)
  | ioError (msg : String)
deriving Repr, DecidableEq

/-! ## On-disk state -/

/-- Persisted frontmatter of a finding file. -/
structure FFront where
  id : String
  title : String
  severity : String
  cwe : Option String
  cvssString : Option String
  cvssScore : Option Nat
  components : Option (List String)
  created : Nat
  updated : Nat
deriving Repr, DecidableEq

/-- A file in a project's `findings/` directory. -/
structure FFile where
  name : String
  front : FFront
  body : List Char
  mtime : Nat
deriving Repr, DecidableEq

/-- Persisted frontmatter of an audit-trail file. -/
structure AFront where
  id : String
  title : String
  created : Nat
  tools : Option (List String)
  methodology : Option String
  results : Option String
  notes : Option String
deriving Repr, DecidableEq

/-- A file in a project's `audit-trails/` directory. -/
structure AFile where
  name : String
  front : AFront
  body : String
  mtime : Nat
deriving Repr, DecidableEq

/-- A subdirectory of the working directory.  `none` marks a missing
`project.json` / `findings/` / `audit-trails/`; file lists are in readdir
order. -/
structure ProjectDir where
  name : String
  projectJson : Option ProjectMetadata
  findingsDir : Option (List FFile)
  auditsDir : Option (List AFile)
deriving Repr, DecidableEq

/-- A lock artifact (file or directory) in the working directory. -/
structure LockFile where
  name : String
  mtime : Nat
deriving Repr, DecidableEq

/-- Contents of the `.mcp-projects.json` index file, and of the in-memory
`InternalProjectIndex` (an insertion-ordered map in both cases). -/
structure IndexData where
  projects : List (String × ProjectMetadata)
  lastActive : Option String
deriving Repr, DecidableEq

/-- One entry of the in-memory listing cache. -/
structure CacheEntry (T : Type) where
  data : T
  lastModified : Nat
  lastAccessed : Nat
deriving Repr, DecidableEq

/-- The `LRUCache` payload: an insertion-ordered map, oldest first. -/
abbrev Cache (T : Type) := List (String × CacheEntry T)

/-- The whole state visible to one `StorageManager`: the filesystem under
its working directory plus its in-memory caches and clock. -/
structure StorageState where
  workingDir : String
  indexFile : Option IndexData
  indexCache : Option IndexData
  dirs : List ProjectDir
  locks : List LockFile
  testEnv : Bool
  instanceLockHeld : Bool
  findingsCache : Cache (List Finding)
  auditsCache : Cache (List AuditTrailEntry)
  cacheMax : Nat
  lockStaleMs : Nat
  now : Nat
deriving Repr, DecidableEq

/-- Result type of a storage operation: the post-state plus an outcome
(`.error` = the JS call threw). -/
abbrev SR (α : Type) := StorageState × Except StorageError α

/-- Boolean test that an operation returned successfully. -/
def isOkE {ε α : Type} : Except ε α → Bool
  | .ok _ => true
  | .error _ => false

/-- Decidable equality of operation outcomes, for concrete evaluation. -/
instance instDecEqExcept {ε α : Type} [DecidableEq ε] [DecidableEq α] :
    DecidableEq (Except ε α) := fun x y =>
  match x, y with
  | .error e₁, .error e₂ =>
    if h : e₁ = e₂ then .isTrue (by rw [h])
    else .isFalse (fun hc => by cases hc; exact h rfl)
  | .error _, .ok _ => .isFalse (fun hc => Except.noConfusion hc)
  | .ok _, .error _ => .isFalse (fun hc => Except.noConfusion hc)
  | .ok a₁, .ok a₂ =>
    if h : a₁ = a₂ then .isTrue (by rw [h])
    else .isFalse (fun hc => by cases hc; exact h rfl)

/-! ## Ordered-map helpers (`Map` semantics of the source) -/

/-- First directory with the given name. -/
def lookupDir : List ProjectDir → String → Option ProjectDir
  | [], _ => none
  | d :: t, n => if d.name = n then some d else lookupDir t n

/-- Update (in place) every directory with the given name. -/
def updateDir (f : ProjectDir → ProjectDir) : List ProjectDir → String → List ProjectDir
  | [], _ => []
  | d :: t, n => (if d.name = n then f d else d) :: updateDir f t n

/-- Remove the directory with the given name (`fs.rm -r`). -/
def removeDir : List ProjectDir → String → List ProjectDir
  | [], _ => []
  | d :: t, n => if d.name = n then removeDir t n else d :: removeDir t n

/-- `Map.get` on the project index. -/
def lookupIdx : List (String × ProjectMetadata) → String → Option ProjectMetadata
  | [], _ => none
  | (k, v) :: t, n => if k = n then some v else lookupIdx t n

/-- `Map.set` on the project index: update in place or append. -/
def setIdx : List (String × ProjectMetadata) → String → ProjectMetadata → List (String × ProjectMetadata)
  | [], n, m => [(n, m)]
  | (k, v) :: t, n, m => if k = n then (n, m) :: t else (k, v) :: setIdx t n m

/-- `Map.delete` on the project index. -/
def delIdx : List (String × ProjectMetadata) → String → List (String × ProjectMetadata)
  | [], _ => []
  | (k, v) :: t, n => if k = n then delIdx t n else (k, v) :: delIdx t n

/-- First finding file with the given file name. -/
def findFile : List FFile → String → Option FFile
  | [], _ => none
  | f :: t, n => if f.name = n then some f else findFile t n

/-- Remove the finding file with the given file name (`fs.unlink`). -/
def removeFile : List FFile → String → List FFile
  | [], _ => []
  | f :: t, n => if f.name = n then removeFile t n else f :: removeFile t n

/-- First audit file with the given file name. -/
def findAFile : List AFile → String → Option AFile
  | [], _ => none
  | f :: t, n => if f.name = n then some f else findAFile t n

end MCPSR

namespace MCPSR

/-! ## Listing cache (`LRUCache` in `storage/index.ts`)

A JS `Map` iterates in insertion order; `get` re-inserts a hit at the end
(most recently used), `set` deletes then appends, and `evictIfNeeded`
removes the first key when over capacity — unless that key is falsy
(the empty string), which the `if (firstKey)` guard skips. -/

/-- `Map.get` on the cache payload. -/
def cacheFind {T : Type} : Cache T → String → Option (CacheEntry T)
  | [], _ => none
  | (k, e) :: t, n => if k = n then some e else cacheFind t n

/-- `Map.delete` on the cache payload. -/
def cacheDelete {T : Type} : Cache T → String → Cache T
  | [], _ => []
  | (k, e) :: t, n => if k = n then cacheDelete t n else (k, e) :: cacheDelete t n

/-- `LRUCache.get`: refresh `lastAccessed` and move the hit to the end. -/
def cacheGet {T : Type} (c : Cache T) (k : String) (now : Nat) :
    Cache T × Option (CacheEntry T) :=
  match cacheFind c k with
  | none => (c, none)
  | some e =>
    let e' := { e with lastAccessed := now }
    (cacheDelete c k ++ [(k, e')], some e')

/-- `LRUCache.set` followed by `evictIfNeeded`. -/
def cacheSet {T : Type} (c : Cache T) (k : String) (data : T) (lm now maxSize : Nat) :
    Cache T :=
  let c1 := cacheDelete c k ++ [(k, { data := data, lastModified := lm, lastAccessed := now })]
  if c1.length ≤ maxSize then c1
  else
    match c1 with
    | [] => []
    | (k0, e0) :: t => if k0 = "" then (k0, e0) :: t else t

/-- `LRUCache` constructor argument validation (`maxSize` as an integer;
values below 1 fall back to the default 50, values above 10000 are capped). -/
def lruCap (maxSize : Int) : Nat :=
  if maxSize < 1 then 50 else if 10000 < maxSize then 10000 else maxSize.toNat

/-- `MCP_SECURITY_REPORT_CACHE_SIZE` handling in `env.ts`: a digit-only
value within `[1, 10000]` is used, anything else makes zod validation fail
and the whole environment fall back to defaults (`cacheSize = 50`). -/
def configuredCacheSize (envVar : Option Nat) : Nat :=
  match envVar with
  | some n => if 1 ≤ n ∧ n ≤ 10000 then n else 50
  | none => 50

/-! ## Project index (`readProjectIndex` / `writeProjectIndex`) -/

/-- `Array.prototype.join(', ')`. -/
def joinComma : List String → String
  | [] => ""
  | [x] => x
  | x :: xs => x ++ ", " ++ joinComma xs

/-- The fatal diagnostic built by `checkForCorruptedDirectory`. -/
def corruptionMessage (workingDir : String) (names : List String) : String :=
  "FATAL: MCP Security Report directory corruption detected!\n" ++
  "Found " ++ toString names.length ++
  " project directories but missing .mcp-projects.json index file.\n" ++
  "Projects found: " ++ joinComma names ++ "\n" ++
  "Working directory: " ++ workingDir ++ "\n\n" ++
  "This indicates data corruption or manual deletion of the index file.\n" ++
  "To recover, either:\n" ++
  "1. Restore .mcp-projects.json from backup, or\n" ++
  "2. Move existing project directories to a safe location and reinitialize\n\n" ++
  "The server cannot safely continue operation in this state."

/-- Name filter for project-shaped subdirectories. -/
def projectLikeName (n : String) : Bool :=
  !(isPre (strL ".") n.data) && !(isPre (strL "node_modules") n.data) &&
  !(isPre (strL "tmp") n.data) && !(isPre (strL "temp") n.data)

/-- Lock-artifact name test shared by the corruption check and the sweep. -/
def isLockArtifactName (n : String) : Bool :=
  isPre (strL ".mcp-lock-") n.data || n == ".mcp-instance.lock"

/-- Orphaned project directories found by `checkForCorruptedDirectory`. -/
def orphanDirs (s : StorageState) : List String :=
  ((s.dirs.filter (fun d => projectLikeName d.name)).filter
    (fun d => d.projectJson.isSome)).map (fun d => d.name)

/-- `checkForCorruptedDirectory`: `some msg` when the fatal heuristic
fires.  Test/tmp-looking working directories and test environments are
skipped unconditionally. -/
def checkCorrupted (s : StorageState) : Option String :=
  if hasSub (strL "tmp") s.workingDir.data || hasSub (strL "temp") s.workingDir.data ||
     hasSub (strL "test") s.workingDir.data || s.testEnv then none
  else
    let hasLockFiles := s.locks.any (fun l => isLockArtifactName l.name)
    let actual := orphanDirs s
    if actual ≠ [] ∧ (hasLockFiles ∨ 1 < actual.length) then
      some (corruptionMessage s.workingDir actual)
    else none

/-- The empty internal index. -/
def emptyIndex : IndexData := { projects := [], lastActive := none }

/-- `readProjectIndex`: cached snapshot, else the file, else (absent file)
the corruption check and an empty index. -/
def readProjectIndex (s : StorageState) : SR IndexData :=
  match s.indexCache with
  | some ic => (s, .ok ic)
  | none =>
    match s.indexFile with
    | some f => ({ s with indexCache := some f }, .ok f)
    | none =>
      match checkCorrupted s with
      | some msg => (s, .error (.corruption msg))
      | none => ({ s with indexCache := some emptyIndex }, .ok emptyIndex)

/-- `getProject` (index lookup under the sanitized name). -/
def getProject (s : StorageState) (projectName : String) : SR ProjectMetadata :=
  let sn := sanitizeProjectName projectName
  match readProjectIndex s with
  | (s1, .error e) => (s1, .error e)
  | (s1, .ok idx) =>
    match lookupIdx idx.projects sn with
    | some m => (s1, .ok m)
    | none => (s1, .error (.projectNotFound sn))

/-- `checkProjectNotCompleted`: the completed-project guard. -/
def checkProjectNotCompleted (s : StorageState) (projectName operation : String) : SR Unit :=
  match getProject s projectName with
  | (s1, .error e) => (s1, .error e)
  | (s1, .ok m) =>
    if m.status = .completed then (s1, .error (.projectCompleted projectName operation))
    else (s1, .ok ())

/-! ## Project mutation -/

/-- Object-spread merge of `UpdateProjectInput` over existing metadata,
with `status: updates.status ?? metadata.status`. -/
def applyProjectUpdates (m : ProjectMetadata) (u : UpdateProjectInput) (now : Nat) :
    ProjectMetadata :=
  { m with
    client := (match u.client with | none => m.client | some v => v),
    scope := (match u.scope with | none => m.scope | some v => v),
    description := (match u.description with | none => m.description | some v => v),
    status := (match u.status with | some (some st) => st | _ => m.status),
    updated := now }

/-- `updateProject` (under the `project-index` lock): guard, rewrite
`project.json`, then rewrite the index and drop the index cache. -/
def updateProject (s : StorageState) (projectName : String) (u : UpdateProjectInput) :
    SR ProjectMetadata :=
  match getProject s projectName with
  | (s1, .error e) => (s1, .error e)
  | (s1, .ok m) =>
    if m.status = .completed then (s1, .error (.projectCompleted projectName "update"))
    else
      let updated := applyProjectUpdates m u s1.now
      let sn := sanitizeProjectName projectName
      match lookupDir s1.dirs sn with
      | none => (s1, .error (.ioError "Failed to update project"))
      | some _ =>
        let s2 := { s1 with
          dirs := updateDir (fun d => { d with projectJson := some updated }) s1.dirs sn }
        match readProjectIndex s2 with
        | (s3, .error _) => (s3, .error (.ioError "Failed to update project"))
        | (s3, .ok idx) =>
          ({ s3 with
              indexFile := some { idx with projects := setIdx idx.projects sn updated },
              indexCache := none }, .ok updated)

/-- `deleteProject` (under the `project-index` lock): guard, rewrite the
index without the project, then remove its directory. -/
def deleteProject (s : StorageState) (projectName : String) : SR Unit :=
  let sn := sanitizeProjectName projectName
  match getProject s sn with
  | (s1, .error e) => (s1, .error e)
  | (s1, .ok _) =>
    match checkProjectNotCompleted s1 sn "delete" with
    | (s2, .error e) => (s2, .error e)
    | (s2, .ok _) =>
      match readProjectIndex s2 with
      | (s3, .error e) => (s3, .error e)
      | (s3, .ok idx) =>
        let la := if idx.lastActive = some sn then none else idx.lastActive
        let idx' : IndexData := { projects := delIdx idx.projects sn, lastActive := la }
        ({ s3 with indexFile := some idx', indexCache := none,
                   dirs := removeDir s3.dirs sn }, .ok ())

end MCPSR

namespace MCPSR

/-! ## Finding CRUD -/

/-- The frontmatter block persisted for a finding. -/
def findingFrontOf (f : Finding) : FFront :=
  { id := f.id, title := f.title, severity := f.severity, cwe := f.cwe,
    cvssString := f.cvssString, cvssScore := f.cvssScore,
    components := f.components, created := f.created, updated := f.updated }

/-- The on-disk file written for a finding. -/
def findingFileOf (f : Finding) (now : Nat) : FFile :=
  { name := f.id ++ ".md", front := findingFrontOf f,
    body := renderFindingBody f.description f.evidence f.recommendations,
    mtime := now }

/-- Write phase of `createFinding` (inside the per-finding lock):
existence check, atomic write, project timestamp bump, cache invalidation. -/
def createFindingWrite (s : StorageState) (projectName : String) (finding : Finding) :
    SR Finding :=
  let sn := sanitizeProjectName projectName
  match lookupDir s.dirs sn with
  | none => (s, .error (.ioError "Failed to create finding"))
  | some d =>
    match d.findingsDir with
    | none => (s, .error (.ioError "Failed to create finding"))
    | some files =>
      if (findFile files (finding.id ++ ".md")).isSome then
        (s, .error (.findingExists finding.id))
      else
        let file : FFile := findingFileOf finding s.now
        let s1 := { s with
          dirs := updateDir (fun dd => { dd with findingsDir := some (files ++ [file]) }) s.dirs sn }
        match updateProject s1 projectName {} with
        | (s2, .error _) => (s2, .error (.ioError "Failed to create finding"))
        | (s2, .ok _) =>
          ({ s2 with findingsCache := cacheDelete s2.findingsCache (projectName ++ "-findings") },
           .ok finding)

/-- `createFinding`: project guard, CVSS derivation (aborting before any
file I/O on a rejected non-empty vector), then the locked write phase. -/
def createFinding (ext : String → Option Nat) (randomHex : String) (s : StorageState)
    (projectName : String) (input : FindingInput) : SR Finding :=
  match getProject s projectName with
  | (s1, .error e) => (s1, .error e)
  | (s1, .ok _) =>
    match checkProjectNotCompleted s1 projectName "create finding" with
    | (s2, .error e) => (s2, .error e)
    | (s2, .ok _) =>
      let base : Finding :=
        { id := sanitizeFindingId randomHex input.title,
          title := input.title, severity := input.severity, cwe := input.cwe,
          cvssString := input.cvssString, cvssScore := none,
          components := input.components, description := input.description,
          evidence := input.evidence, recommendations := input.recommendations,
          created := s2.now, updated := s2.now }
      match input.cvssString with
      | none => createFindingWrite s2 projectName base
      | some v =>
        if v = "" then createFindingWrite s2 projectName base
        else
          match calculateCVSSScore ext v with
          | none => (s2, .error (.invalidCvss v))
          | some sc => createFindingWrite s2 projectName { base with cvssScore := some sc }

/-- `getFinding`: read the file, parse frontmatter, extract body sections. -/
def getFinding (s : StorageState) (projectName findingId : String) : SR Finding :=
  match getProject s projectName with
  | (s1, .error e) => (s1, .error e)
  | (s1, .ok _) =>
    let sn := sanitizeProjectName projectName
    match lookupDir s1.dirs sn with
    | none => (s1, .error (.findingNotFound findingId))
    | some d =>
      match d.findingsDir with
      | none => (s1, .error (.findingNotFound findingId))
      | some files =>
        match findFile files (findingId ++ ".md") with
        | none => (s1, .error (.findingNotFound findingId))
        | some f =>
          (s1, .ok
            { id := f.front.id, title := f.front.title,
              severity := f.front.severity, cwe := f.front.cwe,
              cvssString := f.front.cvssString, cvssScore := f.front.cvssScore,
              components := f.front.components,
              description := String.mk ((extractSection "Description" f.body).getD []),
              evidence := (extractSection "Evidence" f.body).map String.mk,
              recommendations := (extractSection "Recommendations" f.body).map String.mk,
              created := f.front.created, updated := f.front.updated })

/-! ## Paginated listing -/

/-- `String.prototype.endsWith` at character level. -/
def endsWith (suf l : List Char) : Bool := isPre suf.reverse l.reverse

/-- Stable insertion into a sorted list (`le x y` = `x` may precede `y`). -/
def insertSorted {α : Type} (le : α → α → Bool) (x : α) : List α → List α
  | [] => [x]
  | y :: t => if le x y then x :: y :: t else y :: insertSorted le x t

/-- Stable sort modelling the (stable) JS `Array.prototype.sort`. -/
def sortBy {α : Type} (le : α → α → Bool) : List α → List α
  | [] => []
  | x :: t => insertSorted le x (sortBy le t)

/-- Descending-mtime comparator of the JS `sort((a, b) => b - a)`. -/
def mtimeGe (a b : FFile) : Bool := decide (b.mtime ≤ a.mtime)

/-- `Array.prototype.slice(offset, offset + limit)`. -/
def sliceList {α : Type} (l : List α) (offset limit : Nat) : List α :=
  (l.drop offset).take limit

/-- `Math.max` over the mtimes of a directory listing (`0` when empty), as
in `getDirectoryLastModified`. -/
def maxMtimes (files : List FFile) : Nat := files.foldr (fun f m => max f.mtime m) 0

/-- `getDirectoryLastModified` on a project's `findings/` directory
(`0` on any readdir error). -/
def dirLastModifiedF (s : StorageState) (sn : String) : Nat :=
  match lookupDir s.dirs sn with
  | none => 0
  | some d =>
    match d.findingsDir with
    | none => 0
    | some files => maxMtimes files

/-- The batched stat-scan loop of `listFindings`, with explicit fuel (one
unit per batch; the wrapper passes the file count, which suffices since a
nonzero batch size consumes at least one file per step): accumulate batch
stats, keep the freshest `memLimit`, stop once `threshold` entries are
gathered. -/
def scanBatchesFuel (batchSize memLimit threshold : Nat) :
    Nat → List FFile → List FFile → List FFile
  | _, [], acc => acc
  | 0, _, acc => acc
  | fuel + 1, remaining, acc =>
    if batchSize = 0 then acc
    else
      let acc' := (sortBy mtimeGe (acc ++ remaining.take batchSize)).take memLimit
      if threshold ≤ acc'.length then acc'
      else scanBatchesFuel batchSize memLimit threshold fuel (remaining.drop batchSize) acc'

/-- The batch loop entry point. -/
def scanBatches (batchSize memLimit threshold : Nat) (remaining acc : List FFile) :
    List FFile :=
  scanBatchesFuel batchSize memLimit threshold remaining.length remaining acc

/-- The record built for one listed finding: frontmatter only, with the
body sections deliberately stubbed out. -/
def mkListFinding (f : FFile) : Finding :=
  { id := f.front.id, title := f.front.title, severity := f.front.severity,
    cwe := f.front.cwe, cvssString := f.front.cvssString,
    cvssScore := f.front.cvssScore, components := f.front.components,
    description := "", evidence := none, recommendations := none,
    created := f.front.created, updated := f.front.updated }

/-- Cache-miss path of `listFindings` after the directory was read:
adaptive batching, final sort and slice, record construction, secondary
sort by the records' own `updated` timestamps. -/
def listFindingsCore (files : List FFile) (limit offset : Nat) : List Finding :=
  let mdFiles := files.filter (fun f => endsWith (strL ".md") f.name.data)
  let batchSize := if 1000 < mdFiles.length then min 25 (limit * 2) else min 50 (limit * 3)
  let target := offset + limit
  let memLimit := if 500 < offset then min (target + 100) 2000 else target + 50
  let threshold := target + min 20 batchSize
  let scanned := scanBatches batchSize memLimit threshold mdFiles []
  let page := sliceList (sortBy mtimeGe scanned) offset limit
  sortBy (fun a b => decide (b.updated ≤ a.updated)) (page.map mkListFinding)

/-- Directory-read part of `listFindings`; a missing directory is the
ENOENT branch that caches and returns an empty listing. -/
def listFindingsScan (s : StorageState) (sn cacheKey : String) (limit offset : Nat) :
    SR (List Finding) :=
  match lookupDir s.dirs sn with
  | none =>
    ({ s with findingsCache := cacheSet s.findingsCache cacheKey [] s.now s.now s.cacheMax },
     .ok [])
  | some d =>
    match d.findingsDir with
    | none =>
      ({ s with findingsCache := cacheSet s.findingsCache cacheKey [] s.now s.now s.cacheMax },
       .ok [])
    | some files => (s, .ok (listFindingsCore files limit offset))

/-- `listFindings` with explicit `limit`/`offset` (source defaults are 100
and 0): freshness-checked cache consultation, then the scan path. -/
def listFindings (s : StorageState) (projectName : String) (limit offset : Nat) :
    SR (List Finding) :=
  match getProject s projectName with
  | (s1, .error e) => (s1, .error e)
  | (s1, .ok _) =>
    let sn := sanitizeProjectName projectName
    let cacheKey := projectName ++ "-findings"
    let lastModified := dirLastModifiedF s1 sn
    let gc := cacheGet s1.findingsCache cacheKey s1.now
    let s2 := { s1 with findingsCache := gc.1 }
    match gc.2 with
    | some entry =>
      if lastModified ≤ entry.lastModified then (s2, .ok (sliceList entry.data offset limit))
      else listFindingsScan s2 sn cacheKey limit offset
    | none => listFindingsScan s2 sn cacheKey limit offset

/-! ## Finding update/delete -/

/-- Write phase of `updateFinding`: rewrite the file in place, bump the
project timestamp, invalidate the cache. -/
def updateFindingWrite (s : StorageState) (projectName findingId : String)
    (updated : Finding) : SR Finding :=
  let sn := sanitizeProjectName projectName
  match lookupDir s.dirs sn with
  | none => (s, .error (.ioError "Failed to update finding"))
  | some d =>
    match d.findingsDir with
    | none => (s, .error (.ioError "Failed to update finding"))
    | some files =>
      let front : FFront :=
        { id := updated.id, title := updated.title,
          severity := updated.severity, cwe := updated.cwe,
          cvssString := updated.cvssString, cvssScore := updated.cvssScore,
          components := updated.components, created := updated.created,
          updated := updated.updated }
      let file : FFile :=
        { name := findingId ++ ".md", front := front,
          body := renderFindingBody updated.description updated.evidence updated.recommendations,
          mtime := s.now }
      let files' := files.map (fun f => if f.name = findingId ++ ".md" then file else f)
      let s1 := { s with
        dirs := updateDir (fun dd => { dd with findingsDir := some files' }) s.dirs sn }
      match updateProject s1 projectName {} with
      | (s2, .error _) => (s2, .error (.ioError "Failed to update finding"))
      | (s2, .ok _) =>
        ({ s2 with findingsCache := cacheDelete s2.findingsCache (projectName ++ "-findings") },
         .ok updated)

/-- `updateFinding`: read the existing finding, guard, merge updates,
re-derive the CVSS score when a vector was supplied, rewrite. -/
def updateFinding (ext : String → Option Nat) (s : StorageState)
    (projectName findingId : String) (u : FindingUpdate) : SR Finding :=
  match getFinding s projectName findingId with
  | (s1, .error e) => (s1, .error e)
  | (s1, .ok existing) =>
    match checkProjectNotCompleted s1 projectName "update finding" with
    | (s2, .error e) => (s2, .error e)
    | (s2, .ok _) =>
      let merged : Finding := { existing with
        title := (match u.title with | some (some v) => v | _ => existing.title),
        severity := (match u.severity with | some (some v) => v | _ => existing.severity),
        cwe := (match u.cwe with | none => existing.cwe | some v => v),
        cvssString := (match u.cvssString with | none => existing.cvssString | some v => v),
        components := (match u.components with | none => existing.components | some v => v),
        description := (match u.description with | some (some v) => v | _ => existing.description),
        evidence := (match u.evidence with | none => existing.evidence | some v => v),
        recommendations :=
          (match u.recommendations with | none => existing.recommendations | some v => v),
        updated := s2.now }
      match u.cvssString with
      | some (some v) =>
        if v = "" then updateFindingWrite s2 projectName findingId { merged with cvssScore := none }
        else
          match calculateCVSSScore ext v with
          | none => (s2, .error (.invalidCvss v))
          | some sc =>
            updateFindingWrite s2 projectName findingId { merged with cvssScore := some sc }
      | some none => updateFindingWrite s2 projectName findingId merged
      | none => updateFindingWrite s2 projectName findingId merged

/-- `deleteFinding`: read (for existence), guard, unlink, bump, invalidate. -/
def deleteFinding (s : StorageState) (projectName findingId : String) : SR Unit :=
  match getFinding s projectName findingId with
  | (s1, .error e) => (s1, .error e)
  | (s1, .ok _) =>
    match checkProjectNotCompleted s1 projectName "delete finding" with
    | (s2, .error e) => (s2, .error e)
    | (s2, .ok _) =>
      let sn := sanitizeProjectName projectName
      match lookupDir s2.dirs sn with
      | none => (s2, .error (.ioError "Failed to delete finding"))
      | some d =>
        match d.findingsDir with
        | none => (s2, .error (.ioError "Failed to delete finding"))
        | some files =>
          let s3 := { s2 with
            dirs := updateDir
              (fun dd => { dd with findingsDir := some (removeFile files (findingId ++ ".md")) })
              s2.dirs sn }
          match updateProject s3 projectName {} with
          | (s4, .error _) => (s4, .error (.ioError "Failed to delete finding"))
          | (s4, .ok _) =>
            ({ s4 with
                findingsCache := cacheDelete s4.findingsCache (projectName ++ "-findings") },
             .ok ())

end MCPSR

namespace MCPSR

/-! ## Audit trail CRUD and listing -/

/-- `createAuditTrail`: guard, existence check, `ensureDirectoryExists`
on `audit-trails/` (recursive mkdir), atomic write, bump, invalidate. -/
def createAuditTrail (randomHex : String) (s : StorageState) (projectName : String)
    (input : AuditTrailInput) : SR AuditTrailEntry :=
  match getProject s projectName with
  | (s1, .error e) => (s1, .error e)
  | (s1, .ok _) =>
    match checkProjectNotCompleted s1 projectName "create audit trail" with
    | (s2, .error e) => (s2, .error e)
    | (s2, .ok _) =>
      let entry : AuditTrailEntry :=
        { id := sanitizeAuditId randomHex input.title, title := input.title,
          description := input.description, created := s2.now,
          tools := input.tools, methodology := input.methodology,
          results := input.results, notes := input.notes }
      let sn := sanitizeProjectName projectName
      let files : List AFile :=
        match lookupDir s2.dirs sn with
        | none => []
        | some d => (d.auditsDir).getD []
      if (findAFile files (entry.id ++ ".md")).isSome then
        (s2, .error (.auditExists entry.id))
      else
        let front : AFront :=
          { id := entry.id, title := entry.title, created := entry.created,
            tools := entry.tools, methodology := entry.methodology,
            results := entry.results, notes := entry.notes }
        let file : AFile :=
          { name := entry.id ++ ".md", front := front, body := entry.description,
            mtime := s2.now }
        let s3 :=
          match lookupDir s2.dirs sn with
          | none => { s2 with dirs := s2.dirs ++ [⟨sn, none, none, some [file]⟩] }
          | some _ =>
            { s2 with
              dirs := updateDir
                (fun dd => { dd with auditsDir := some ((dd.auditsDir).getD [] ++ [file]) })
                s2.dirs sn }
        match updateProject s3 projectName {} with
        | (s4, .error _) => (s4, .error (.ioError "Failed to create audit trail"))
        | (s4, .ok _) =>
          ({ s4 with
              auditsCache := cacheDelete s4.auditsCache (projectName ++ "-audit-trails") },
           .ok entry)

/-- `getAuditTrail`: frontmatter plus the whole body as `description`;
`methodology`/`results`/`notes` are not propagated by the source. -/
def getAuditTrail (s : StorageState) (projectName auditId : String) : SR AuditTrailEntry :=
  match getProject s projectName with
  | (s1, .error e) => (s1, .error e)
  | (s1, .ok _) =>
    let sn := sanitizeProjectName projectName
    match lookupDir s1.dirs sn with
    | none => (s1, .error (.auditNotFound auditId))
    | some d =>
      match d.auditsDir with
      | none => (s1, .error (.auditNotFound auditId))
      | some files =>
        match findAFile files (auditId ++ ".md") with
        | none => (s1, .error (.auditNotFound auditId))
        | some a =>
          (s1, .ok
            { id := a.front.id, title := a.front.title, description := a.body,
              created := a.front.created, tools := a.front.tools,
              methodology := none, results := none, notes := none })

/-- Descending-mtime comparator for audit files. -/
def amtimeGe (a b : AFile) : Bool := decide (b.mtime ≤ a.mtime)

/-- `getDirectoryLastModified` on a project's `audit-trails/` directory. -/
def dirLastModifiedA (s : StorageState) (sn : String) : Nat :=
  match lookupDir s.dirs sn with
  | none => 0
  | some d =>
    match d.auditsDir with
    | none => 0
    | some files => files.foldr (fun f m => max f.mtime m) 0

/-- The batched stat-scan loop of `listAuditTrails` (no memory trimming,
fixed early-stop buffer of 10), with explicit fuel as for findings. -/
def scanBatchesAFuel (batchSize threshold : Nat) :
    Nat → List AFile → List AFile → List AFile
  | _, [], acc => acc
  | 0, _, acc => acc
  | fuel + 1, remaining, acc =>
    if batchSize = 0 then acc
    else
      let acc' := sortBy amtimeGe (acc ++ remaining.take batchSize)
      if threshold ≤ acc'.length then acc'
      else scanBatchesAFuel batchSize threshold fuel (remaining.drop batchSize) acc'

/-- The audit batch loop entry point. -/
def scanBatchesA (batchSize threshold : Nat) (remaining acc : List AFile) : List AFile :=
  scanBatchesAFuel batchSize threshold remaining.length remaining acc

/-- The record built for one listed audit entry (description stubbed). -/
def mkListAudit (a : AFile) : AuditTrailEntry :=
  { id := a.front.id, title := a.front.title, description := "",
    created := a.front.created, tools := a.front.tools,
    methodology := none, results := none, notes := none }

/-- Cache-miss path of `listAuditTrails` after the directory was read. -/
def listAuditsCore (files : List AFile) (limit offset : Nat) : List AuditTrailEntry :=
  let mdFiles := files.filter (fun f => endsWith (strL ".md") f.name.data)
  let batchSize := min 50 (limit * 3)
  let target := offset + limit
  let threshold := target + 10
  let scanned := scanBatchesA batchSize threshold mdFiles []
  let page := sliceList (sortBy amtimeGe scanned) offset limit
  sortBy (fun a b => decide (b.created ≤ a.created)) (page.map mkListAudit)

/-- Directory-read part of `listAuditTrails` with the ENOENT branch. -/
def listAuditsScan (s : StorageState) (sn cacheKey : String) (limit offset : Nat) :
    SR (List AuditTrailEntry) :=
  match lookupDir s.dirs sn with
  | none =>
    ({ s with auditsCache := cacheSet s.auditsCache cacheKey [] s.now s.now s.cacheMax },
     .ok [])
  | some d =>
    match d.auditsDir with
    | none =>
      ({ s with auditsCache := cacheSet s.auditsCache cacheKey [] s.now s.now s.cacheMax },
       .ok [])
    | some files => (s, .ok (listAuditsCore files limit offset))

/-- `listAuditTrails` with explicit `limit`/`offset`. -/
def listAuditTrails (s : StorageState) (projectName : String) (limit offset : Nat) :
    SR (List AuditTrailEntry) :=
  match getProject s projectName with
  | (s1, .error e) => (s1, .error e)
  | (s1, .ok _) =>
    let sn := sanitizeProjectName projectName
    let cacheKey := projectName ++ "-audit-trails"
    let lastModified := dirLastModifiedA s1 sn
    let gc := cacheGet s1.auditsCache cacheKey s1.now
    let s2 := { s1 with auditsCache := gc.1 }
    match gc.2 with
    | some entry =>
      if lastModified ≤ entry.lastModified then (s2, .ok (sliceList entry.data offset limit))
      else listAuditsScan s2 sn cacheKey limit offset
    | none => listAuditsScan s2 sn cacheKey limit offset

/-! ## Stale-lock sweep (`cleanupStaleLocks`)

The source tries to skip its own held instance lock by comparing the
artifact path `workingDir + '/' + name` with `this.instanceLockPath`,
which is `workingDir + '/.mcp-instance'` — without the artifact's `.lock`
suffix.  The comparison is embedded exactly as written. -/

/-- Whether one sweep pass removes the given lock artifact. -/
def sweepRemoves (s : StorageState) (l : LockFile) : Bool :=
  isLockArtifactName l.name &&
  !((s.workingDir ++ "/" ++ l.name == s.workingDir ++ "/.mcp-instance") && s.instanceLockHeld) &&
  decide ((if l.name = ".mcp-instance.lock" then 60000 else s.lockStaleMs) < s.now - l.mtime)

/-- `cleanupStaleLocks`: remove every artifact the sweep selects. -/
def cleanupStaleLocks (s : StorageState) : StorageState :=
  { s with locks := s.locks.filter (fun l => !(sweepRemoves s l)) }

/-! ## Instance lock (`acquireInstanceLock`) -/

/-- The error message thrown when another instance holds the lock. -/
def instanceLockErrorMessage (workingDir : String) : String :=
  "Another MCP Security Report instance is already running in " ++ workingDir ++ ".\n" ++
  "Running multiple instances in the same directory can lead to data corruption.\n" ++
  "If you are certain no other instance is running, you can manually remove the lock file:\n" ++
  "  rm -r \"" ++ workingDir ++ "/.mcp-instance" ++ ".lock\""

/-- `acquireInstanceLock`, abstracting the underlying `proper-lockfile`
call as its result: an `already being held` failure is rewrapped into the
remediation message, any other failure is wrapped generically. -/
def acquireInstanceLock (lockAttempt : Except String Unit) (workingDir : String) :
    Except String Unit :=
  match lockAttempt with
  | .ok _ => .ok ()
  | .error m =>
    if hasSub (strL "already being held") m.data then
      .error (instanceLockErrorMessage workingDir)
    else .error ("Failed to acquire instance lock: " ++ m)

/-! ## Transactional project creation -/

/-- Fallible steps of `executeProjectCreationTransaction`, for failure
injection. -/
inductive CreateStep where
  | mkRoot
  | mkFindings
  | mkAudits
  | writeMeta
  | readIdx
  | writeIdx
deriving Repr, DecidableEq

/-- `executeProjectCreationTransaction` with an injected failing step
(`none` = all steps succeed).  Completed undo actions run in reverse
order; the rollback itself always clears the index cache. -/
def executeProjectCreationTransaction (failAt : Option CreateStep) (sn : String)
    (meta : ProjectMetadata) (s : StorageState) : SR ProjectMetadata :=
  if failAt = some .mkRoot then
    ({ s with indexCache := none }, .error (.ioError "Failed to create project"))
  else
    let dirs1 :=
      match lookupDir s.dirs sn with
      | some _ => s.dirs
      | none => s.dirs ++ [⟨sn, none, none, none⟩]
    if failAt = some .mkFindings then
      ({ s with dirs := removeDir dirs1 sn, indexCache := none },
       .error (.ioError "Failed to create project"))
    else
      let dirs2 := updateDir (fun d => { d with findingsDir := some [] }) dirs1 sn
      if failAt = some .mkAudits then
        ({ s with dirs := removeDir dirs2 sn, indexCache := none },
         .error (.ioError "Failed to create project"))
      else
        let dirs3 := updateDir (fun d => { d with auditsDir := some [] }) dirs2 sn
        if failAt = some .writeMeta then
          ({ s with dirs := removeDir dirs3 sn, indexCache := none },
           .error (.ioError "Failed to create project"))
        else
          let dirs4 := updateDir (fun d => { d with projectJson := some meta }) dirs3 sn
          let s4 := { s with dirs := dirs4 }
          if failAt = some .readIdx then
            ({ s4 with dirs := removeDir dirs4 sn, indexCache := none },
             .error (.ioError "Failed to create project"))
          else
            match readProjectIndex s4 with
            | (s5, .error _) =>
              ({ s5 with dirs := removeDir s5.dirs sn, indexCache := none },
               .error (.ioError "Failed to create project"))
            | (s5, .ok idx) =>
              if failAt = some .writeIdx then
                ({ s5 with dirs := removeDir s5.dirs sn, indexCache := none },
                 .error (.ioError "Failed to create project"))
              else
                ({ s5 with
                    indexFile := some { projects := setIdx idx.projects sn meta,
                                        lastActive := idx.lastActive },
                    indexCache := none }, .ok meta)

/-- `createProject`: sanitize the name, reject an existing directory, then
run the transaction under the `project-index` lock. -/
def createProject (failAt : Option CreateStep) (uuid : String) (s : StorageState)
    (input : CreateProjectInput) : SR ProjectMetadata :=
  let sn := sanitizeProjectName input.name
  if sn = "" then (s, .error (.ioError "Invalid project name"))
  else
    match lookupDir s.dirs sn with
    | some _ => (s, .error (.projectExists sn))
    | none =>
      let meta : ProjectMetadata :=
        { id := uuid, name := sn, client := input.client, created := s.now,
          updated := s.now, scope := input.scope, status := .inProgress,
          description := input.description }
      executeProjectCreationTransaction failAt sn meta s

end MCPSR

namespace MCPSR

/-! ## Concrete states and inputs used to evaluate the model -/

/-- An in-progress project registered under the name `proj`. -/
def metaInProgress : ProjectMetadata :=
  { id := "uuid-1", name := "proj", client := none, created := 10, updated := 10,
    scope := none, status := .inProgress, description := none }

/-- A completed project registered under the name `done`. -/
def metaCompleted : ProjectMetadata :=
  { id := "uuid-2", name := "done", client := none, created := 10, updated := 10,
    scope := none, status := .completed, description := none }

/-- Index holding only the completed project. -/
def doneIdx : IndexData := { projects := [("done", metaCompleted)], lastActive := none }

/-- Index holding only the in-progress project. -/
def projIdx : IndexData := { projects := [("proj", metaInProgress)], lastActive := none }

/-- A finding file stored for the completed project. -/
def wFF : FFile :=
  { name := "FIND-00000000-x.md",
    front := { id := "FIND-00000000-x", title := "x", severity := "High", cwe := none,
               cvssString := none, cvssScore := none, components := none,
               created := 5, updated := 5 },
    body := strL "## Description\n\nd\n\n", mtime := 5 }

/-- An audit-trail file stored for the completed project. -/
def wAF : AFile :=
  { name := "AUDIT-00000000-y.md",
    front := { id := "AUDIT-00000000-y", title := "y", created := 6, tools := none,
               methodology := none, results := none, notes := none },
    body := "b", mtime := 6 }

/-- State with one completed project containing a finding and an audit entry. -/
def w1State : StorageState :=
  { workingDir := "/srv/reports", indexFile := some doneIdx, indexCache := some doneIdx,
    dirs := [⟨"done", some metaCompleted, some [wFF], some [wAF]⟩], locks := [],
    testEnv := false, instanceLockHeld := false, findingsCache := [], auditsCache := [],
    cacheMax := 50, lockStaleMs := 60000, now := 100 }

/-- State with one in-progress empty project. -/
def pState : StorageState :=
  { workingDir := "/srv/reports", indexFile := some projIdx, indexCache := some projIdx,
    dirs := [⟨"proj", some metaInProgress, some [], some []⟩], locks := [],
    testEnv := false, instanceLockHeld := false, findingsCache := [], auditsCache := [],
    cacheMax := 50, lockStaleMs := 60000, now := 100 }

/-- A schema-valid finding input whose description carries a trailing
space (`description` only requires 1..5000 characters). -/
def cex2Input : FindingInput :=
  { title := "T", severity := "High", cwe := none, cvssString := none,
    components := none, description := "a ", evidence := none, recommendations := none }

/-- A finding input with an empty `cvssString` (falsy in JS). -/
def cex8Input : FindingInput :=
  { title := "T", severity := "High", cwe := none, cvssString := some "",
    components := none, description := "d", evidence := none, recommendations := none }

/-- A finding input carrying a nonempty CVSS vector. -/
def w8Input : FindingInput :=
  { title := "T", severity := "High", cwe := none,
    cvssString := some "CVSS:3.1/AV:N", components := none, description := "d",
    evidence := none, recommendations := none }

/-- A well-behaved finding input for the round-trip witness. -/
def w2Input : FindingInput :=
  { title := "T", severity := "High", cwe := some "CWE-89", cvssString := none,
    components := some ["api"], description := "hello world",
    evidence := some "ev line", recommendations := some "fix it" }

/-- One finding file for the pagination scenario: `fk.md` has mtime `k`
and matching record timestamps. -/
def c4File (k : Nat) : FFile :=
  { name := "f" ++ toString k ++ ".md",
    front := { id := "f" ++ toString k, title := "t", severity := "Low", cwe := none,
               cvssString := none, cvssScore := none, components := none,
               created := k, updated := k },
    body := strL "## Description\n\nd\n\n", mtime := k }

/-- Seven findings in readdir order `f1..f7`; `f7` is the most recent. -/
def c4Files : List FFile :=
  [c4File 1, c4File 2, c4File 3, c4File 4, c4File 5, c4File 6, c4File 7]

/-- State for the pagination scenario. -/
def c4State : StorageState :=
  { workingDir := "/srv/reports", indexFile := some projIdx, indexCache := some projIdx,
    dirs := [⟨"proj", some metaInProgress, some c4Files, some []⟩], locks := [],
    testEnv := false, instanceLockHeld := false, findingsCache := [], auditsCache := [],
    cacheMax := 50, lockStaleMs := 60000, now := 100 }

/-- Metadata sitting inside an orphaned project directory. -/
def alphaMeta : ProjectMetadata :=
  { id := "uuid-3", name := "alpha", client := none, created := 0, updated := 0,
    scope := none, status := .inProgress, description := none }

/-- A working directory whose path contains `test`, with an orphaned
project directory (own `project.json`), a lock artifact, and no index. -/
def cex5State : StorageState :=
  { workingDir := "/srv/test", indexFile := none, indexCache := none,
    dirs := [⟨"alpha", some alphaMeta, some [], some []⟩],
    locks := [⟨".mcp-lock-project-index", 0⟩],
    testEnv := false, instanceLockHeld := false, findingsCache := [], auditsCache := [],
    cacheMax := 50, lockStaleMs := 60000, now := 0 }

/-- The same orphaned layout under a non-test path, with two orphans. -/
def w5State : StorageState :=
  { workingDir := "/srv/reports", indexFile := none, indexCache := none,
    dirs := [⟨"alpha", some alphaMeta, some [], some []⟩,
             ⟨"beta", some alphaMeta, some [], some []⟩],
    locks := [], testEnv := false, instanceLockHeld := false,
    findingsCache := [], auditsCache := [], cacheMax := 50, lockStaleMs := 60000,
    now := 0 }

/-- A state whose own instance lock artifact is 70 seconds old while the
process still holds the lock. -/
def c7State : StorageState :=
  { workingDir := "/srv/reports", indexFile := some emptyIndex, indexCache := none,
    dirs := [], locks := [⟨".mcp-instance.lock", 0⟩],
    testEnv := false, instanceLockHeld := true, findingsCache := [], auditsCache := [],
    cacheMax := 50, lockStaleMs := 60000, now := 70000 }

end MCPSR

namespace MCPSR

/-! ## Cache operation sequences (for the LRU bound) -/

/-- One public operation on an `LRUCache`. -/
inductive CacheOp (T : Type) where
  | get (k : String)
  | set (k : String) (data : T) (lm : Nat)
  | del (k : String)

/-- Apply one cache operation (the clock value does not affect sizes). -/
def applyCacheOp {T : Type} (maxSize : Nat) (c : Cache T) : CacheOp T → Cache T
  | .get k => (cacheGet c k 0).1
  | .set k data lm => cacheSet c k data lm 0 maxSize
  | .del k => cacheDelete c k

/-- Apply a sequence of cache operations from left to right. -/
def applyCacheOps {T : Type} (maxSize : Nat) (c : Cache T) : List (CacheOp T) → Cache T
  | [] => c
  | op :: rest => applyCacheOps maxSize (applyCacheOp maxSize c op) rest

/-- All keys stored in a cache are nonempty (true of the listing caches,
whose keys always end in `-findings` / `-audit-trails`). -/
def entriesNE {T : Type} (c : Cache T) : Prop := ∀ kv ∈ c, kv.1 ≠ ""

/-- A `set` operation carrying an empty key. -/
def isEmptyKeySet {T : Type} : CacheOp T → Bool
  | .set k _ _ => k = ""
  | _ => false

/-! ## Early-mismatch helper for header scans -/

/-- Whether `p` and `a` disagree at some position before either runs out;
if so, `p` cannot be a prefix of `a ++ w` for any `w`. -/
def clash : List Char → List Char → Bool
  | [], _ => false
  | _, [] => false
  | x :: p, y :: a => if x = y then clash p a else true

/-- Normalization of empty optional sections used by the round-trip
statement: an empty or absent section reads back as absent. -/
def normSection (o : Option String) : Option String :=
  match o with
  | some s => if s = "" then none else some s
  | none => none

end MCPSR

namespace MCPSR

/-! ## Basic lemmas about the string primitives -/

theorem isPre_iff (p : List Char) : ∀ l, isPre p l = true ↔ ∃ t, l = p ++ t := by
  induction p with
  | nil => intro l; simp [isPre]
  | cons a p ih =>
    intro l
    cases l with
    | nil => simp [isPre]
    | cons b t =>
      by_cases hab : a = b
      · subst hab
        rw [show isPre (a :: p) (a :: t) = isPre p t from by simp [isPre], ih t]
        constructor
        · rintro ⟨w, rfl⟩; exact ⟨w, rfl⟩
        · rintro ⟨w, hw⟩
          injection hw with h1 h2
          exact ⟨w, h2⟩
      · rw [show isPre (a :: p) (b :: t) = false from by simp [isPre, hab]]
        constructor
        · intro h; cases h
        · rintro ⟨w, hw⟩
          injection hw with h1 h2
          exact absurd h1.symm hab

theorem isPre_self_append (p t : List Char) : isPre p (p ++ t) = true :=
  (isPre_iff p (p ++ t)).mpr ⟨t, rfl⟩

theorem hasSub_cons (p : List Char) (c : Char) (t : List Char) :
    hasSub p (c :: t) = (isPre p (c :: t) || hasSub p t) := rfl

theorem hasSub_right_mono (p y : List Char) (h : hasSub p y = true) :
    ∀ x, hasSub p (x ++ y) = true := by
  intro x
  induction x with
  | nil => simpa using h
  | cons c x ih => simp [hasSub_cons, ih]

theorem hasSub_start (p y : List Char) : hasSub p (p ++ y) = true := by
  cases p with
  | nil =>
    cases y with
    | nil => rfl
    | cons c t => simp [hasSub, isPre]
  | cons a q =>
    rw [List.cons_append, hasSub_cons, ← List.cons_append, isPre_self_append]
    simp

theorem hasSub_mid (p x y : List Char) : hasSub p (x ++ (p ++ y)) = true :=
  hasSub_right_mono p (p ++ y) (hasSub_start p y) x

theorem hasSub_of_isPre_suffix (p s l : List Char) (hs : s <:+ l) (hne : s ≠ [])
    (h : isPre p s = true) : hasSub p l = true := by
  obtain ⟨pre, rfl⟩ := hs
  obtain ⟨t, rfl⟩ := (isPre_iff p s).mp h
  exact hasSub_mid p pre t

theorem hasSub_of_suffix (p s l : List Char) (hs : s <:+ l) (h : hasSub p s = true) :
    hasSub p l = true := by
  obtain ⟨pre, rfl⟩ := hs
  exact hasSub_right_mono p s h pre

theorem hasSub_cons_false (p : List Char) (c : Char) (t : List Char)
    (h : hasSub p (c :: t) = false) : isPre p (c :: t) = false ∧ hasSub p t = false := by
  rw [hasSub_cons] at h
  exact ⟨by revert h; cases isPre p (c :: t) <;> simp, by revert h; cases hasSub p t <;> simp⟩

/-! ## Claim C6 setup lemmas -/

theorem strL_append (a b : String) : (a ++ b).data = a.data ++ b.data := by
  simp [String.data_append]

theorem hasSub_left_mono (p x : List Char) (h : hasSub p x = true) :
    ∀ y, hasSub p (x ++ y) = true := by
  intro y
  induction x with
  | nil =>
    simp only [hasSub] at h
    have : p = [] := by
      cases p with
      | nil => rfl
      | cons a q => simp [isPre] at h
    subst this
    cases y <;> simp [hasSub, isPre]
  | cons c x ih =>
    rw [hasSub_cons] at h
    rw [List.cons_append, hasSub_cons]
    rcases Bool.or_eq_true_iff.mp h with hp | hs
    · obtain ⟨t, ht⟩ := (isPre_iff p (c :: x)).mp hp
      have h3 : c :: (x ++ y) = p ++ (t ++ y) := by
        rw [← List.cons_append, ht, List.append_assoc]
      rw [h3, isPre_self_append]
      simp
    · simp [ih hs]

/-- `instanceLockErrorMessage d` in right-associated list form. -/
theorem instanceLockErrorMessage_data (d : String) :
    (instanceLockErrorMessage d).data =
      strL "Another MCP Security Report instance is already running in " ++
      (d.data ++
       (strL ".\n" ++
        (strL "Running multiple instances in the same directory can lead to data corruption.\n" ++
         (strL "If you are certain no other instance is running, you can manually remove the lock file:\n" ++
          (strL "  rm -r \"" ++
           (d.data ++
            (strL "/.mcp-instance" ++ strL ".lock\""))))))) := by
  simp only [instanceLockErrorMessage, strL, String.data_append, List.append_assoc]

end MCPSR

namespace MCPSR

/-- C6: whenever `acquireInstanceLock` fails because the lock is already
being held, the thrown message contains the working directory path, the
data-corruption warning, and the literal `rm` command for that
directory's lock artifact. -/
theorem c6_instance_lock_error_contents (d m : String)
    (hheld : hasSub (strL "already being held") m.data = true) :
    acquireInstanceLock (.error m) d = .error (instanceLockErrorMessage d) ∧
    hasSub d.data (instanceLockErrorMessage d).data = true ∧
    hasSub (strL "can lead to data corruption") (instanceLockErrorMessage d).data = true ∧
    hasSub (strL "rm -r \"" ++ d.data ++ strL "/.mcp-instance.lock\"")
      (instanceLockErrorMessage d).data = true := by
  refine ⟨by simp [acquireInstanceLock, hheld], ?_, ?_, ?_⟩
  · rw [instanceLockErrorMessage_data]
    exact hasSub_mid _ _ _
  · rw [instanceLockErrorMessage_data]
    apply hasSub_right_mono _ _ ?h1
    apply hasSub_right_mono _ _ ?h2
    apply hasSub_right_mono _ _ ?h3
    have hsplit :
        strL "Running multiple instances in the same directory can lead to data corruption.\n" =
        strL "Running multiple instances in the same directory " ++
          (strL "can lead to data corruption" ++ strL ".\n") := by decide
    rw [hsplit, List.append_assoc]
    exact hasSub_mid _ _ _
  · rw [instanceLockErrorMessage_data]
    apply hasSub_right_mono _ _ ?g1
    apply hasSub_right_mono _ _ ?g2
    apply hasSub_right_mono _ _ ?g3
    apply hasSub_right_mono _ _ ?g4
    apply hasSub_right_mono _ _ ?g5
    have hsp1 : strL "  rm -r \"" = strL "  " ++ strL "rm -r \"" := by decide
    have hsp2 : strL "/.mcp-instance" ++ strL ".lock\"" = strL "/.mcp-instance.lock\"" := by
      decide
    rw [hsp1, hsp2, List.append_assoc]
    have h0 := hasSub_start (strL "rm -r \"" ++ d.data ++ strL "/.mcp-instance.lock\"") []
    rw [List.append_nil, List.append_assoc] at h0
    exact hasSub_right_mono _ _ h0 (strL "  ")

/-- C6 witness: the theorem applied at a concrete directory and a
concrete underlying `already being held` failure. -/
theorem c6_instance_lock_error_contents_witness :
    hasSub (strL "already being held")
      (strL "Lock at /srv/reports/.mcp-instance is already being held") = true ∧
    (acquireInstanceLock (.error "Lock at /srv/reports/.mcp-instance is already being held")
        "/srv/reports" = .error (instanceLockErrorMessage "/srv/reports") ∧
      hasSub (strL "/srv/reports") (instanceLockErrorMessage "/srv/reports").data = true ∧
      hasSub (strL "can lead to data corruption")
        (instanceLockErrorMessage "/srv/reports").data = true ∧
      hasSub (strL "rm -r \"" ++ (strL "/srv/reports") ++ strL "/.mcp-instance.lock\"")
        (instanceLockErrorMessage "/srv/reports").data = true) :=
  ⟨by decide,
   c6_instance_lock_error_contents "/srv/reports"
     "Lock at /srv/reports/.mcp-instance is already being held" (by decide)⟩

/-- C7: evaluating the sweep at a state whose own instance lock is held
but 70 seconds old shows the sweep removes the held lock artifact — the
`lockPath === this.instanceLockPath` guard compares against the path
without the `.lock` suffix and never fires. -/
theorem c7_sweep_removes_own_held_lock :
    c7State.instanceLockHeld = true ∧
    (60000 : Nat) < c7State.now - ((⟨".mcp-instance.lock", 0⟩ : LockFile)).mtime ∧
    sweepRemoves c7State ⟨".mcp-instance.lock", 0⟩ = true ∧
    (cleanupStaleLocks c7State).locks = [] := by
  refine ⟨rfl, by decide, ?_, ?_⟩
  · decide
  · decide

end MCPSR

namespace MCPSR

/-! ## LRU cache bound lemmas -/

theorem cacheDelete_length_le {T : Type} (c : Cache T) (k : String) :
    (cacheDelete c k).length ≤ c.length := by
  induction c with
  | nil => simp [cacheDelete]
  | cons kv t ih =>
    obtain ⟨k', e'⟩ := kv
    by_cases h : k' = k <;> simp [cacheDelete, h] <;> omega

theorem cacheFind_some_delete_length {T : Type} (c : Cache T) (k : String)
    (e : CacheEntry T) (h : cacheFind c k = some e) :
    (cacheDelete c k).length + 1 ≤ c.length := by
  induction c with
  | nil => simp [cacheFind] at h
  | cons kv t ih =>
    obtain ⟨k', e'⟩ := kv
    by_cases hk : k' = k
    · have := cacheDelete_length_le t k
      simp [cacheDelete, hk]
      omega
    · simp [cacheFind, hk] at h
      have := ih h
      simp [cacheDelete, hk]
      omega

theorem cacheFind_some_mem {T : Type} (c : Cache T) (k : String) (e : CacheEntry T)
    (h : cacheFind c k = some e) : (k, e) ∈ c := by
  induction c with
  | nil => simp [cacheFind] at h
  | cons kv t ih =>
    obtain ⟨k', e'⟩ := kv
    by_cases hk : k' = k
    · subst hk
      simp [cacheFind] at h
      simp [h]
    · simp [cacheFind, hk] at h
      exact List.mem_cons_of_mem _ (ih h)

theorem mem_cacheDelete {T : Type} (c : Cache T) (k : String) (kv : String × CacheEntry T)
    (h : kv ∈ cacheDelete c k) : kv ∈ c := by
  induction c with
  | nil => simpa [cacheDelete] using h
  | cons kv' t ih =>
    obtain ⟨k', e'⟩ := kv'
    by_cases hk : k' = k
    · simp only [cacheDelete, if_pos hk] at h
      exact List.mem_cons_of_mem _ (ih h)
    · simp only [cacheDelete, if_neg hk, List.mem_cons] at h
      rcases h with h | h
      · simp [h]
      · exact List.mem_cons_of_mem _ (ih h)

theorem entriesNE_cacheDelete {T : Type} (c : Cache T) (k : String) (h : entriesNE c) :
    entriesNE (cacheDelete c k) :=
  fun kv hm => h kv (mem_cacheDelete c k kv hm)

theorem cacheGet_length {T : Type} (c : Cache T) (k : String) (now : Nat) :
    ((cacheGet c k now).1).length ≤ c.length := by
  unfold cacheGet
  cases hf : cacheFind c k with
  | none => simp
  | some e =>
    have := cacheFind_some_delete_length c k e hf
    simp
    omega

theorem entriesNE_cacheGet {T : Type} (c : Cache T) (k : String) (now : Nat)
    (h : entriesNE c) : entriesNE ((cacheGet c k now).1) := by
  unfold cacheGet
  cases hf : cacheFind c k with
  | none => simpa
  | some e =>
    intro kv hm
    simp only [List.mem_append, List.mem_singleton] at hm
    rcases hm with hm | hm
    · exact h kv (mem_cacheDelete c k kv hm)
    · subst hm
      exact h (k, e) (cacheFind_some_mem c k e hf)

theorem cacheSet_eq {T : Type} (c : Cache T) (k : String) (data : T) (lm now n : Nat) :
    cacheSet c k data lm now n =
      (if (cacheDelete c k ++
            [(k, ({ data := data, lastModified := lm, lastAccessed := now } : CacheEntry T))]).length ≤ n
       then cacheDelete c k ++
            [(k, ({ data := data, lastModified := lm, lastAccessed := now } : CacheEntry T))]
       else
        match cacheDelete c k ++
            [(k, ({ data := data, lastModified := lm, lastAccessed := now } : CacheEntry T))] with
        | [] => []
        | (k0, e0) :: t => if k0 = "" then (k0, e0) :: t else t) := rfl

theorem cacheSet_length {T : Type} (c : Cache T) (k : String) (data : T) (lm now n : Nat)
    (hn : 1 ≤ n) (hc : c.length ≤ n) (hinv : entriesNE c) (hk : k ≠ "") :
    (cacheSet c k data lm now n).length ≤ n := by
  have hlen : (cacheDelete c k).length ≤ c.length := cacheDelete_length_le c k
  have base : entriesNE (cacheDelete c k ++
      [(k, ({ data := data, lastModified := lm, lastAccessed := now } : CacheEntry T))]) := by
    intro kv hm
    simp only [List.mem_append, List.mem_singleton] at hm
    rcases hm with hm | hm
    · exact hinv kv (mem_cacheDelete c k kv hm)
    · subst hm; exact hk
  have hlen1 : (cacheDelete c k ++
      [(k, ({ data := data, lastModified := lm, lastAccessed := now } : CacheEntry T))]).length
      ≤ c.length + 1 := by
    simp
    omega
  rw [cacheSet_eq]
  split
  · omega
  · rename_i hcond
    split
    · simp
    · rename_i k0 e0 t heq
      have hk0 : k0 ≠ "" := by
        apply base (k0, e0)
        rw [heq]
        simp
      rw [if_neg hk0]
      rw [heq] at hlen1
      simp at hlen1
      omega

theorem entriesNE_cacheSet {T : Type} (c : Cache T) (k : String) (data : T) (lm now n : Nat)
    (hinv : entriesNE c) (hk : k ≠ "") : entriesNE (cacheSet c k data lm now n) := by
  have base : entriesNE (cacheDelete c k ++
      [(k, ({ data := data, lastModified := lm, lastAccessed := now } : CacheEntry T))]) := by
    intro kv hm
    simp only [List.mem_append, List.mem_singleton] at hm
    rcases hm with hm | hm
    · exact hinv kv (mem_cacheDelete c k kv hm)
    · subst hm; exact hk
  rw [cacheSet_eq]
  split
  · exact base
  · split
    · intro kv hm; simp at hm
    · rename_i k0 e0 t heq
      rw [heq] at base
      by_cases hk0 : k0 = ""
      · rw [if_pos hk0]
        exact base
      · rw [if_neg hk0]
        intro kv hm
        exact base kv (List.mem_cons_of_mem _ hm)

theorem applyCacheOps_bound {T : Type} (n : Nat) (hn : 1 ≤ n) (ops : List (CacheOp T)) :
    ∀ c, c.length ≤ n → entriesNE c →
      (∀ op ∈ ops, isEmptyKeySet op = false) →
      (applyCacheOps n c ops).length ≤ n ∧ entriesNE (applyCacheOps n c ops) := by
  induction ops with
  | nil => intro c hc hinv _; exact ⟨hc, hinv⟩
  | cons op rest ih =>
    intro c hc hinv hkeys
    have hop : isEmptyKeySet op = false := hkeys op (List.mem_cons_self op rest)
    have hrest : ∀ o ∈ rest, isEmptyKeySet o = false :=
      fun o hm => hkeys o (List.mem_cons_of_mem _ hm)
    have hstep : (applyCacheOp n c op).length ≤ n ∧ entriesNE (applyCacheOp n c op) := by
      cases op with
      | get k => exact ⟨le_trans (cacheGet_length c k 0) hc, entriesNE_cacheGet c k 0 hinv⟩
      | set k data lm =>
        have hk : k ≠ "" := by
          simp [isEmptyKeySet] at hop
          exact hop
        exact ⟨cacheSet_length c k data lm 0 n hn hc hinv hk,
               entriesNE_cacheSet c k data lm 0 n hinv hk⟩
      | del k =>
        exact ⟨le_trans (cacheDelete_length_le c k) hc, entriesNE_cacheDelete c k hinv⟩
    exact ih (applyCacheOp n c op) hstep.1 hstep.2 hrest

/-- C9: the listing cache's capacity is the configured size (default 50,
always within `[1, 10000]`, in-range values taken verbatim, larger
constructor arguments capped at 10000), and from an empty cache every
operation sequence whose `set` keys are nonempty — as all listing-cache
keys are — keeps the entry count at or below the capacity. -/
theorem c9_lru_capacity_and_bound (envVar : Option Nat) (ops : List (CacheOp (List Finding)))
    (hkeys : ∀ op ∈ ops, isEmptyKeySet op = false) :
    1 ≤ lruCap (configuredCacheSize envVar) ∧
    lruCap (configuredCacheSize envVar) ≤ 10000 ∧
    (envVar = none → lruCap (configuredCacheSize envVar) = 50) ∧
    (∀ n, envVar = some n → 1 ≤ n → n ≤ 10000 →
      lruCap (configuredCacheSize envVar) = n) ∧
    (∀ m : Int, 10000 < m → lruCap m = 10000) ∧
    (∀ m : Int, 1 ≤ lruCap m ∧ lruCap m ≤ 10000) ∧
    (applyCacheOps (lruCap (configuredCacheSize envVar)) [] ops).length ≤
      lruCap (configuredCacheSize envVar) := by
  have hcap : ∀ m : Int, 1 ≤ lruCap m ∧ lruCap m ≤ 10000 := by
    intro m
    unfold lruCap
    by_cases h1 : m < 1
    · simp [h1]
    · by_cases h2 : 10000 < m
      · simp [h1, h2]
      · simp [h1, h2]
        omega
  refine ⟨(hcap _).1, (hcap _).2, ?_, ?_, ?_, hcap, ?_⟩
  · intro h; subst h; rfl
  · intro n h h1 h2
    subst h
    have hc : configuredCacheSize (some n) = n := by
      show (if 1 ≤ n ∧ n ≤ 10000 then n else 50) = n
      rw [if_pos (show 1 ≤ n ∧ n ≤ 10000 from ⟨h1, h2⟩)]
    rw [hc]
    unfold lruCap
    rw [if_neg (show ¬((n : Int) < 1) by omega),
        if_neg (show ¬((10000 : Int) < (n : Int)) by omega)]
    omega
  · intro m hm
    simp [lruCap, hm]
    omega
  · exact (applyCacheOps_bound _ (hcap _).1 ops [] (by simp) (by intro kv h; simp at h)
      hkeys).1

/-- C9 witness: capacity 2 via the environment, three insertions stay
within bound. -/
theorem c9_lru_capacity_and_bound_witness :
    (∀ op ∈ ([.set "a-findings" [] 0, .set "b-findings" [] 0,
              .set "c-findings" [] 0] : List (CacheOp (List Finding))),
      isEmptyKeySet op = false) ∧
    (applyCacheOps (lruCap (configuredCacheSize (some 2))) []
        ([.set "a-findings" [] 0, .set "b-findings" [] 0,
          .set "c-findings" [] 0] : List (CacheOp (List Finding)))).length ≤
      lruCap (configuredCacheSize (some 2)) := by
  refine ⟨by decide, ?_⟩
  exact (c9_lru_capacity_and_bound (some 2) _ (by decide)).2.2.2.2.2.2

end MCPSR

namespace MCPSR

/-! ## Rollback lemmas (claim C3) -/

theorem removeDir_lookup (l : List ProjectDir) (n : String) :
    lookupDir (removeDir l n) n = none := by
  induction l with
  | nil => rfl
  | cons d t ih =>
    by_cases h : d.name = n
    · simp [removeDir, h, ih]
    · simp [removeDir, lookupDir, h, ih]

theorem readProjectIndex_indexFile (s : StorageState) :
    (readProjectIndex s).1.indexFile = s.indexFile := by
  unfold readProjectIndex
  cases hic : s.indexCache with
  | some ic => rfl
  | none =>
    cases hif : s.indexFile with
    | some f => rfl
    | none =>
      cases hcc : checkCorrupted s with
      | some msg => exact hif
      | none => rfl

theorem readProjectIndex_dirs (s : StorageState) :
    (readProjectIndex s).1.dirs = s.dirs := by
  unfold readProjectIndex
  cases hic : s.indexCache with
  | some ic => rfl
  | none =>
    cases hif : s.indexFile with
    | some f => rfl
    | none =>
      cases hcc : checkCorrupted s with
      | some msg => rfl
      | none => rfl

theorem exec_txn_rollback (step : CreateStep) (sn : String) (meta : ProjectMetadata)
    (s : StorageState) (hfresh : lookupDir s.dirs sn = none) :
    isOkE (executeProjectCreationTransaction (some step) sn meta s).2 = false ∧
    lookupDir (executeProjectCreationTransaction (some step) sn meta s).1.dirs sn = none ∧
    (executeProjectCreationTransaction (some step) sn meta s).1.indexFile = s.indexFile := by
  cases step with
  | mkRoot =>
    unfold executeProjectCreationTransaction
    rw [if_pos rfl]
    exact ⟨rfl, hfresh, rfl⟩
  | mkFindings =>
    unfold executeProjectCreationTransaction
    rw [if_neg (by decide), if_pos rfl]
    exact ⟨rfl, removeDir_lookup _ _, rfl⟩
  | mkAudits =>
    unfold executeProjectCreationTransaction
    rw [if_neg (by decide), if_neg (by decide), if_pos rfl]
    exact ⟨rfl, removeDir_lookup _ _, rfl⟩
  | writeMeta =>
    unfold executeProjectCreationTransaction
    rw [if_neg (by decide), if_neg (by decide), if_neg (by decide), if_pos rfl]
    exact ⟨rfl, removeDir_lookup _ _, rfl⟩
  | readIdx =>
    unfold executeProjectCreationTransaction
    rw [if_neg (by decide), if_neg (by decide), if_neg (by decide), if_neg (by decide),
        if_pos rfl]
    exact ⟨rfl, removeDir_lookup _ _, rfl⟩
  | writeIdx =>
    unfold executeProjectCreationTransaction
    rw [if_neg (by decide), if_neg (by decide), if_neg (by decide), if_neg (by decide),
        if_neg (by decide)]
    split
    · rename_i s5 e heq
      refine ⟨rfl, removeDir_lookup _ _, ?_⟩
      have h1 := congrArg (fun p => (Prod.fst p).indexFile) heq
      exact h1.symm.trans (readProjectIndex_indexFile _)
    · rename_i s5 idx heq
      rw [if_pos rfl]
      refine ⟨rfl, removeDir_lookup _ _, ?_⟩
      have h1 := congrArg (fun p => (Prod.fst p).indexFile) heq
      exact h1.symm.trans (readProjectIndex_indexFile _)

/-- C3: injecting a failure at any step of the project-creation
transaction (in particular the index-write step) yields an error, a fully
removed project directory, and an index file identical to the one before
the call. -/
theorem c3_rollback_completeness (step : CreateStep) (uuid : String) (s : StorageState)
    (input : CreateProjectInput)
    (hsn : sanitizeProjectName input.name ≠ "")
    (hfresh : lookupDir s.dirs (sanitizeProjectName input.name) = none) :
    isOkE (createProject (some step) uuid s input).2 = false ∧
    lookupDir (createProject (some step) uuid s input).1.dirs
      (sanitizeProjectName input.name) = none ∧
    (createProject (some step) uuid s input).1.indexFile = s.indexFile := by
  unfold createProject
  rw [if_neg hsn, hfresh]
  exact exec_txn_rollback step _ _ s hfresh

/-- C3 witness: the index-write step fails while creating `newproj` in a
state holding one other project. -/
theorem c3_rollback_completeness_witness :
    sanitizeProjectName "newproj" ≠ "" ∧
    lookupDir pState.dirs (sanitizeProjectName "newproj") = none ∧
    (isOkE (createProject (some .writeIdx) "uuid-9" pState
        ⟨"newproj", none, none, none⟩).2 = false ∧
      lookupDir (createProject (some .writeIdx) "uuid-9" pState
        ⟨"newproj", none, none, none⟩).1.dirs (sanitizeProjectName "newproj") = none ∧
      (createProject (some .writeIdx) "uuid-9" pState
        ⟨"newproj", none, none, none⟩).1.indexFile = pState.indexFile) :=
  ⟨by decide, by decide,
   c3_rollback_completeness .writeIdx "uuid-9" pState ⟨"newproj", none, none, none⟩
     (by decide) (by decide)⟩

end MCPSR

namespace MCPSR

/-! ## Symbolic execution step lemmas -/

theorem readProjectIndex_cached (s : StorageState) (idx : IndexData)
    (hci : s.indexCache = some idx) : readProjectIndex s = (s, .ok idx) := by
  unfold readProjectIndex
  rw [hci]

theorem getProject_cached (s : StorageState) (p : String) (idx : IndexData)
    (m : ProjectMetadata) (hsan : sanitizeProjectName p = p)
    (hci : s.indexCache = some idx) (hm : lookupIdx idx.projects p = some m) :
    getProject s p = (s, .ok m) := by
  unfold getProject
  rw [readProjectIndex_cached s idx hci]
  simp only [hsan, hm]

theorem checkNotCompleted_completed (s : StorageState) (p op : String) (idx : IndexData)
    (m : ProjectMetadata) (hsan : sanitizeProjectName p = p)
    (hci : s.indexCache = some idx) (hm : lookupIdx idx.projects p = some m)
    (hst : m.status = .completed) :
    checkProjectNotCompleted s p op = (s, .error (.projectCompleted p op)) := by
  unfold checkProjectNotCompleted
  rw [getProject_cached s p idx m hsan hci hm]
  simp only [hst, if_pos]

theorem getFinding_found (s : StorageState) (p fid : String) (idx : IndexData)
    (m : ProjectMetadata) (d : ProjectDir) (files : List FFile) (f : FFile)
    (hsan : sanitizeProjectName p = p) (hci : s.indexCache = some idx)
    (hm : lookupIdx idx.projects p = some m)
    (hd : lookupDir s.dirs p = some d) (hfd : d.findingsDir = some files)
    (hff : findFile files (fid ++ ".md") = some f) :
    getFinding s p fid =
      (s, .ok
        { id := f.front.id, title := f.front.title,
          severity := f.front.severity, cwe := f.front.cwe,
          cvssString := f.front.cvssString, cvssScore := f.front.cvssScore,
          components := f.front.components,
          description := String.mk ((extractSection "Description" f.body).getD []),
          evidence := (extractSection "Evidence" f.body).map String.mk,
          recommendations := (extractSection "Recommendations" f.body).map String.mk,
          created := f.front.created, updated := f.front.updated }) := by
  unfold getFinding
  rw [getProject_cached s p idx m hsan hci hm]
  simp only [hsan, hd, hfd, hff]

theorem getAuditTrail_found (s : StorageState) (p aid : String) (idx : IndexData)
    (m : ProjectMetadata) (d : ProjectDir) (files : List AFile) (a : AFile)
    (hsan : sanitizeProjectName p = p) (hci : s.indexCache = some idx)
    (hm : lookupIdx idx.projects p = some m)
    (hd : lookupDir s.dirs p = some d) (had : d.auditsDir = some files)
    (haf : findAFile files (aid ++ ".md") = some a) :
    getAuditTrail s p aid =
      (s, .ok
        { id := a.front.id, title := a.front.title, description := a.body,
          created := a.front.created, tools := a.front.tools,
          methodology := none, results := none, notes := none }) := by
  unfold getAuditTrail
  rw [getProject_cached s p idx m hsan hci hm]
  simp only [hsan, hd, had, haf]

theorem listFindingsScan_isOk (s : StorageState) (sn key : String) (l o : Nat) :
    isOkE (listFindingsScan s sn key l o).2 = true := by
  unfold listFindingsScan
  split
  · rfl
  · split
    · rfl
    · rfl

theorem listAuditsScan_isOk (s : StorageState) (sn key : String) (l o : Nat) :
    isOkE (listAuditsScan s sn key l o).2 = true := by
  unfold listAuditsScan
  split
  · rfl
  · split
    · rfl
    · rfl

theorem listFindings_isOk (s : StorageState) (p : String) (l o : Nat) (idx : IndexData)
    (m : ProjectMetadata) (hsan : sanitizeProjectName p = p)
    (hci : s.indexCache = some idx) (hm : lookupIdx idx.projects p = some m) :
    isOkE (listFindings s p l o).2 = true := by
  unfold listFindings
  rw [getProject_cached s p idx m hsan hci hm]
  dsimp only
  split
  · split
    · rfl
    · exact listFindingsScan_isOk _ _ _ _ _
  · exact listFindingsScan_isOk _ _ _ _ _

theorem listAuditTrails_isOk (s : StorageState) (p : String) (l o : Nat) (idx : IndexData)
    (m : ProjectMetadata) (hsan : sanitizeProjectName p = p)
    (hci : s.indexCache = some idx) (hm : lookupIdx idx.projects p = some m) :
    isOkE (listAuditTrails s p l o).2 = true := by
  unfold listAuditTrails
  rw [getProject_cached s p idx m hsan hci hm]
  dsimp only
  split
  · split
    · rfl
    · exact listAuditsScan_isOk _ _ _ _ _
  · exact listAuditsScan_isOk _ _ _ _ _

end MCPSR

namespace MCPSR

/-- C1: on a completed project every mutating operation fails with the
completed-project condition naming the project and the operation, while
all read operations still succeed. -/
theorem c1_completed_immutability (s : StorageState) (p fid aid randomHex : String)
    (ext : String → Option Nat) (u : UpdateProjectInput) (fin : FindingInput)
    (fu : FindingUpdate) (ain : AuditTrailInput) (limit offset : Nat)
    (idx : IndexData) (m : ProjectMetadata) (d : ProjectDir)
    (ffs : List FFile) (ff : FFile) (afs : List AFile) (af : AFile)
    (hsan : sanitizeProjectName p = p)
    (hci : s.indexCache = some idx)
    (hm : lookupIdx idx.projects p = some m)
    (hst : m.status = .completed)
    (hd : lookupDir s.dirs p = some d)
    (hfd : d.findingsDir = some ffs)
    (hff : findFile ffs (fid ++ ".md") = some ff)
    (had : d.auditsDir = some afs)
    (haf : findAFile afs (aid ++ ".md") = some af) :
    (updateProject s p u).2 = .error (.projectCompleted p "update") ∧
    (deleteProject s p).2 = .error (.projectCompleted p "delete") ∧
    (createFinding ext randomHex s p fin).2 = .error (.projectCompleted p "create finding") ∧
    (updateFinding ext s p fid fu).2 = .error (.projectCompleted p "update finding") ∧
    (deleteFinding s p fid).2 = .error (.projectCompleted p "delete finding") ∧
    (createAuditTrail randomHex s p ain).2 = .error (.projectCompleted p "create audit trail") ∧
    (getProject s p).2 = .ok m ∧
    isOkE (getFinding s p fid).2 = true ∧
    isOkE (listFindings s p limit offset).2 = true ∧
    isOkE (getAuditTrail s p aid).2 = true ∧
    isOkE (listAuditTrails s p limit offset).2 = true := by
  refine ⟨?_, ?_, ?_, ?_, ?_, ?_, ?_, ?_, ?_, ?_, ?_⟩
  · unfold updateProject
    rw [getProject_cached s p idx m hsan hci hm]
    dsimp only
    rw [if_pos hst]
  · unfold deleteProject
    rw [hsan]
    dsimp only
    rw [getProject_cached s p idx m hsan hci hm]
    dsimp only
    rw [checkNotCompleted_completed s p "delete" idx m hsan hci hm hst]
  · unfold createFinding
    rw [getProject_cached s p idx m hsan hci hm]
    dsimp only
    rw [checkNotCompleted_completed s p "create finding" idx m hsan hci hm hst]
  · unfold updateFinding
    rw [getFinding_found s p fid idx m d ffs ff hsan hci hm hd hfd hff]
    dsimp only
    rw [checkNotCompleted_completed s p "update finding" idx m hsan hci hm hst]
  · unfold deleteFinding
    rw [getFinding_found s p fid idx m d ffs ff hsan hci hm hd hfd hff]
    dsimp only
    rw [checkNotCompleted_completed s p "delete finding" idx m hsan hci hm hst]
  · unfold createAuditTrail
    rw [getProject_cached s p idx m hsan hci hm]
    dsimp only
    rw [checkNotCompleted_completed s p "create audit trail" idx m hsan hci hm hst]
  · rw [getProject_cached s p idx m hsan hci hm]
  · rw [getFinding_found s p fid idx m d ffs ff hsan hci hm hd hfd hff]
    rfl
  · exact listFindings_isOk s p limit offset idx m hsan hci hm
  · rw [getAuditTrail_found s p aid idx m d afs af hsan hci hm hd had haf]
    rfl
  · exact listAuditTrails_isOk s p limit offset idx m hsan hci hm

/-- C1 witness: the theorem evaluated on a completed project `done`
holding one finding and one audit entry. -/
theorem c1_completed_immutability_witness :
    (sanitizeProjectName "done" = "done" ∧
      w1State.indexCache = some doneIdx ∧
      lookupIdx doneIdx.projects "done" = some metaCompleted ∧
      metaCompleted.status = .completed) ∧
    ((updateProject w1State "done" {}).2 =
        .error (.projectCompleted "done" "update") ∧
      (deleteProject w1State "done").2 = .error (.projectCompleted "done" "delete") ∧
      (createFinding (fun _ => none) "00000000" w1State "done" cex2Input).2 =
        .error (.projectCompleted "done" "create finding") ∧
      (updateFinding (fun _ => none) w1State "done" "FIND-00000000-x" {}).2 =
        .error (.projectCompleted "done" "update finding") ∧
      (deleteFinding w1State "done" "FIND-00000000-x").2 =
        .error (.projectCompleted "done" "delete finding") ∧
      (createAuditTrail "00000000" w1State "done" ⟨"t", "d", none, none, none, none⟩).2 =
        .error (.projectCompleted "done" "create audit trail") ∧
      (getProject w1State "done").2 = .ok metaCompleted ∧
      isOkE (getFinding w1State "done" "FIND-00000000-x").2 = true ∧
      isOkE (listFindings w1State "done" 1 0).2 = true ∧
      isOkE (getAuditTrail w1State "done" "AUDIT-00000000-y").2 = true ∧
      isOkE (listAuditTrails w1State "done" 1 0).2 = true) :=
  ⟨⟨by decide, by decide, by decide, by decide⟩,
   c1_completed_immutability w1State "done" "FIND-00000000-x" "AUDIT-00000000-y"
     "00000000" (fun _ => none) {} cex2Input {} ⟨"t", "d", none, none, none, none⟩ 1 0
     doneIdx metaCompleted ⟨"done", some metaCompleted, some [wFF], some [wAF]⟩
     [wFF] wFF [wAF] wAF
     (by decide) (by decide) (by decide) (by decide) (by decide) (by decide) (by decide)
     (by decide) (by decide)⟩

end MCPSR

namespace MCPSR

/-! ## Listing stub lemmas (claim C10) -/

theorem readProjectIndex_findingsCache (s : StorageState) :
    (readProjectIndex s).1.findingsCache = s.findingsCache := by
  unfold readProjectIndex
  cases hic : s.indexCache with
  | some ic => rfl
  | none =>
    cases hif : s.indexFile with
    | some f => rfl
    | none =>
      cases hcc : checkCorrupted s with
      | some msg => rfl
      | none => rfl

theorem getProject_fst (s : StorageState) (p : String) :
    (getProject s p).1 = (readProjectIndex s).1 := by
  unfold getProject
  rcases hr : readProjectIndex s with ⟨s1, r⟩
  cases r with
  | error e => rfl
  | ok idx =>
    dsimp only
    cases lookupIdx idx.projects (sanitizeProjectName p) with
    | some m => rfl
    | none => rfl

theorem cacheGet_entry_shape {T : Type} (c : Cache T) (k : String) (now : Nat)
    (entry : CacheEntry T) (h : (cacheGet c k now).2 = some entry) :
    ∃ e, cacheFind c k = some e ∧ entry.data = e.data := by
  unfold cacheGet at h
  cases hf : cacheFind c k with
  | none => rw [hf] at h; simp at h
  | some e =>
    rw [hf] at h
    simp at h
    exact ⟨e, rfl, by rw [← h]⟩

theorem mem_insertSorted {α : Type} (le : α → α → Bool) (x a : α) (l : List α)
    (h : a ∈ insertSorted le x l) : a = x ∨ a ∈ l := by
  induction l with
  | nil => simpa [insertSorted] using h
  | cons y t ih =>
    unfold insertSorted at h
    by_cases hle : le x y = true
    · rw [if_pos hle] at h
      simpa using h
    · rw [if_neg hle] at h
      rcases List.mem_cons.mp h with h | h
      · exact Or.inr (by simp [h])
      · rcases ih h with h | h
        · exact Or.inl h
        · exact Or.inr (List.mem_cons_of_mem _ h)

theorem mem_sortBy {α : Type} (le : α → α → Bool) (a : α) (l : List α)
    (h : a ∈ sortBy le l) : a ∈ l := by
  induction l with
  | nil => simpa [sortBy] using h
  | cons x t ih =>
    unfold sortBy at h
    rcases mem_insertSorted le x a _ h with h | h
    · simp [h]
    · exact List.mem_cons_of_mem _ (ih h)

theorem listFindingsCore_stub (files : List FFile) (l o : Nat) :
    ∀ f ∈ listFindingsCore files l o,
      f.description = "" ∧ f.evidence = none ∧ f.recommendations = none := by
  intro f hf
  unfold listFindingsCore at hf
  have hf2 := mem_sortBy _ _ _ hf
  obtain ⟨x, hx, rfl⟩ := List.mem_map.mp hf2
  exact ⟨rfl, rfl, rfl⟩

theorem listFindingsScan_result (s : StorageState) (sn key : String) (l o : Nat)
    (fs : List Finding) (hok : (listFindingsScan s sn key l o).2 = .ok fs) :
    fs = [] ∨ ∃ files, fs = listFindingsCore files l o := by
  unfold listFindingsScan at hok
  rcases hld : lookupDir s.dirs sn with _ | d
  · rw [hld] at hok
    simp at hok
    exact Or.inl hok
  · rw [hld] at hok
    dsimp only at hok
    rcases hfd : d.findingsDir with _ | files
    · rw [hfd] at hok
      simp at hok
      exact Or.inl hok
    · rw [hfd] at hok
      simp at hok
      exact Or.inr ⟨files, hok.symm⟩

/-- C10: every finding returned by `listFindings` has an empty
description and absent evidence/recommendations, whatever the stored file
bodies contain.  The hypothesis on the cache is the listing-cache
invariant (its only `set` call stores `[]`). -/
theorem c10_listing_stubs_bodies (s : StorageState) (p : String) (limit offset : Nat)
    (fs : List Finding)
    (hcache : ∀ kv ∈ s.findingsCache, kv.2.data = ([] : List Finding))
    (hok : (listFindings s p limit offset).2 = .ok fs) :
    ∀ f ∈ fs, f.description = "" ∧ f.evidence = none ∧ f.recommendations = none := by
  unfold listFindings at hok
  rcases hg : getProject s p with ⟨s1, r1⟩
  rw [hg] at hok
  have hs1 : s1.findingsCache = s.findingsCache := by
    have h1 := congrArg (fun q => (Prod.fst q).findingsCache) hg
    simp only at h1
    rw [← h1, getProject_fst, readProjectIndex_findingsCache]
  cases r1 with
  | error e => simp at hok
  | ok m =>
    dsimp only at hok
    rcases hcg : (cacheGet s1.findingsCache (p ++ "-findings") s1.now).2 with _ | entry
    · rw [hcg] at hok
      dsimp only at hok
      rcases listFindingsScan_result _ _ _ _ _ _ hok with hfs | ⟨files, hfs⟩
      · subst hfs
        intro f hf
        simp at hf
      · subst hfs
        exact listFindingsCore_stub files limit offset
    · rw [hcg] at hok
      dsimp only at hok
      obtain ⟨e, hfind, hdata⟩ := cacheGet_entry_shape _ _ _ _ hcg
      have hmem := cacheFind_some_mem _ _ _ hfind
      rw [hs1] at hmem
      have hed : e.data = [] := hcache _ hmem
      by_cases hfresh : dirLastModifiedF s1 (sanitizeProjectName p) ≤ entry.lastModified
      · rw [if_pos hfresh] at hok
        simp at hok
        subst hok
        intro f hf
        rw [hdata, hed] at hf
        simp [sliceList] at hf
      · rw [if_neg hfresh] at hok
        rcases listFindingsScan_result _ _ _ _ _ _ hok with hfs | ⟨files, hfs⟩
        · subst hfs
          intro f hf
          simp at hf
        · subst hfs
          exact listFindingsCore_stub files limit offset

end MCPSR

namespace MCPSR

/-- C4: with seven findings `f1..f7` in readdir order and strictly
increasing mtimes, `listFindings(limit 1, offset 0)` returns the record
of `f6`, not of the most recently modified file `f7`: the batch loop
stops after six stats (threshold `offset+limit+min(20,batchSize)` = 4)
without ever examining `f7`. -/
theorem c4_early_stop_skips_newest :
    (∀ f ∈ c4Files, f.name ≠ "f7.md" → f.mtime < (c4File 7).mtime) ∧
    findFile c4Files "f7.md" = some (c4File 7) ∧
    (listFindings c4State "proj" 1 0).2 = .ok [mkListFinding (c4File 6)] ∧
    mkListFinding (c4File 6) ≠ mkListFinding (c4File 7) := by
  refine ⟨by decide, by decide, by decide, by decide⟩

/-- C10 witness: the theorem applied to the seven-finding state, whose
listing returns one finding with stubbed body sections. -/
theorem c10_listing_stubs_bodies_witness :
    (∀ kv ∈ c4State.findingsCache, kv.2.data = ([] : List Finding)) ∧
    ((listFindings c4State "proj" 1 0).2 = .ok [mkListFinding (c4File 6)] ∧
      ∀ f ∈ [mkListFinding (c4File 6)],
        f.description = "" ∧ f.evidence = none ∧ f.recommendations = none) :=
  ⟨by decide,
   by decide,
   c10_listing_stubs_bodies c4State "proj" 1 0 [mkListFinding (c4File 6)]
     (by decide) (by decide)⟩

end MCPSR

namespace MCPSR

/-! ## Corruption-heuristic lemmas (claim C5) -/

theorem hasSub_joinComma (n : String) (names : List String) (h : n ∈ names) :
    hasSub n.data (joinComma names).data = true := by
  induction names with
  | nil => simp at h
  | cons x t ih =>
    rcases List.mem_cons.mp h with h | h
    · subst h
      cases t with
      | nil =>
        have h0 := hasSub_start n.data []
        simpa using h0
      | cons y t2 =>
        rw [show joinComma (n :: y :: t2) = n ++ ", " ++ joinComma (y :: t2) from rfl,
            strL_append, strL_append, List.append_assoc]
        exact hasSub_start n.data _
    · cases t with
      | nil => simp at h
      | cons y t2 =>
        rw [show joinComma (x :: y :: t2) = x ++ ", " ++ joinComma (y :: t2) from rfl,
            strL_append, strL_append, List.append_assoc]
        exact hasSub_right_mono _ _
          (hasSub_right_mono _ _ (ih h) (", ").data) x.data

theorem corruptionMessage_names (wd : String) (names : List String) (n : String)
    (h : n ∈ names) : hasSub n.data (corruptionMessage wd names).data = true := by
  unfold corruptionMessage
  simp only [String.data_append, List.append_assoc]
  apply hasSub_right_mono _ _ ?h1
  apply hasSub_right_mono _ _ ?h2
  apply hasSub_right_mono _ _ ?h3
  apply hasSub_right_mono _ _ ?h4
  apply hasSub_right_mono _ _ ?h5
  exact hasSub_left_mono _ _ (hasSub_joinComma n names h) _

theorem checkCorrupted_fires (s : StorageState)
    (hskip : (hasSub (strL "tmp") s.workingDir.data ||
              hasSub (strL "temp") s.workingDir.data ||
              hasSub (strL "test") s.workingDir.data || s.testEnv) = false)
    (h1 : orphanDirs s ≠ [])
    (h2 : (s.locks.any fun l => isLockArtifactName l.name) = true ∨
          1 < (orphanDirs s).length) :
    checkCorrupted s = some (corruptionMessage s.workingDir (orphanDirs s)) := by
  unfold checkCorrupted
  rw [if_neg (by simp [hskip])]
  dsimp only
  rw [if_pos ⟨h1, h2⟩]

theorem checkCorrupted_skip (s : StorageState)
    (hskip : (hasSub (strL "tmp") s.workingDir.data ||
              hasSub (strL "temp") s.workingDir.data ||
              hasSub (strL "test") s.workingDir.data || s.testEnv) = true) :
    checkCorrupted s = none := by
  unfold checkCorrupted
  rw [if_pos (by simp [hskip])]

theorem checkCorrupted_quiet (s : StorageState)
    (h : orphanDirs s = [] ∨
         ((s.locks.any fun l => isLockArtifactName l.name) = false ∧
           ¬ 1 < (orphanDirs s).length)) :
    checkCorrupted s = none := by
  unfold checkCorrupted
  by_cases hskip : (hasSub (strL "tmp") s.workingDir.data ||
      hasSub (strL "temp") s.workingDir.data ||
      hasSub (strL "test") s.workingDir.data || s.testEnv) = true
  · rw [if_pos (by simp [hskip])]
  · rw [if_neg (by simpa using hskip)]
    dsimp only
    rw [if_neg]
    rintro ⟨hne, hor⟩
    rcases h with h | ⟨hlock, hlen⟩
    · exact hne h
    · rcases hor with hor | hor
      · rw [hlock] at hor; cases hor
      · exact hlen hor

/-- C5 counterexample to the claim as stated: the index file is absent,
an orphaned project directory with its own `project.json` exists and a
lock artifact exists — the described heuristic condition holds — yet
`readProjectIndex` silently returns the empty index because the working
directory path contains `test`. -/
theorem c5_counterexample :
    cex5State.indexFile = none ∧
    orphanDirs cex5State = ["alpha"] ∧
    (cex5State.locks.any fun l => isLockArtifactName l.name) = true ∧
    (readProjectIndex cex5State).2 = .ok emptyIndex := by
  exact ⟨rfl, by decide, by decide, by decide⟩

/-- C5 (amended): when the index file is absent (and no snapshot is
cached), reading the index fails fatally with a diagnostic that contains
every orphaned project directory name exactly when the corruption
heuristic fires — at least one qualifying subdirectory (name not starting
with `.`/`node_modules`/`tmp`/`temp`) contains a `project.json`, and lock
artifacts exist or more than one such subdirectory exists — and the
working directory path contains none of `tmp`/`temp`/`test` with the
process not in a test environment; in every other case the read returns
the empty index. -/
theorem c5_missing_index_corruption (s : StorageState)
    (hfile : s.indexFile = none) (hcache : s.indexCache = none) :
    ((hasSub (strL "tmp") s.workingDir.data ||
      hasSub (strL "temp") s.workingDir.data ||
      hasSub (strL "test") s.workingDir.data || s.testEnv) = false →
      orphanDirs s ≠ [] →
      ((s.locks.any fun l => isLockArtifactName l.name) = true ∨
        1 < (orphanDirs s).length) →
      readProjectIndex s =
        (s, .error (.corruption (corruptionMessage s.workingDir (orphanDirs s)))) ∧
      ∀ n ∈ orphanDirs s,
        hasSub n.data (corruptionMessage s.workingDir (orphanDirs s)).data = true) ∧
    (((hasSub (strL "tmp") s.workingDir.data ||
       hasSub (strL "temp") s.workingDir.data ||
       hasSub (strL "test") s.workingDir.data || s.testEnv) = true ∨
      orphanDirs s = [] ∨
      ((s.locks.any fun l => isLockArtifactName l.name) = false ∧
        ¬ 1 < (orphanDirs s).length)) →
      (readProjectIndex s).2 = .ok emptyIndex) := by
  constructor
  · intro hskip h1 h2
    constructor
    · unfold readProjectIndex
      rw [hcache, hfile, checkCorrupted_fires s hskip h1 h2]
    · intro n hn
      exact corruptionMessage_names s.workingDir (orphanDirs s) n hn
  · intro h
    have hcc : checkCorrupted s = none := by
      rcases h with h | h | h
      · exact checkCorrupted_skip s h
      · exact checkCorrupted_quiet s (Or.inl h)
      · exact checkCorrupted_quiet s (Or.inr h)
    unfold readProjectIndex
    rw [hcache, hfile, hcc]

/-- C5 witness: two orphaned project directories under a non-test path
make the read fail with a diagnostic naming both. -/
theorem c5_missing_index_corruption_witness :
    (w5State.indexFile = none ∧ w5State.indexCache = none ∧
      orphanDirs w5State = ["alpha", "beta"]) ∧
    (readProjectIndex w5State =
        (w5State, .error (.corruption
          (corruptionMessage w5State.workingDir (orphanDirs w5State)))) ∧
      ∀ n ∈ orphanDirs w5State,
        hasSub n.data (corruptionMessage w5State.workingDir (orphanDirs w5State)).data =
          true) :=
  ⟨⟨rfl, rfl, by decide⟩,
   (c5_missing_index_corruption w5State rfl rfl).1 (by decide) (by decide)
     (Or.inr (by decide))⟩

end MCPSR

namespace MCPSR

/-! ## CVSS frame lemmas (claim C8) -/

theorem lookupDir_updateDir (f : ProjectDir → ProjectDir)
    (hf : ∀ d, (f d).name = d.name) (l : List ProjectDir) (n : String) :
    lookupDir (updateDir f l n) n = (lookupDir l n).map f := by
  induction l with
  | nil => rfl
  | cons d t ih =>
    by_cases h : d.name = n
    · simp only [updateDir, lookupDir, if_pos h]
      rw [if_pos ((hf d).trans h)]
      rfl
    · simp only [updateDir, lookupDir, if_neg h, ih]

theorem checkNotCompleted_ok (s : StorageState) (p op : String) (idx : IndexData)
    (m : ProjectMetadata) (hsan : sanitizeProjectName p = p)
    (hci : s.indexCache = some idx) (hm : lookupIdx idx.projects p = some m)
    (hst : m.status ≠ .completed) :
    checkProjectNotCompleted s p op = (s, .ok ()) := by
  unfold checkProjectNotCompleted
  rw [getProject_cached s p idx m hsan hci hm]
  dsimp only
  rw [if_neg hst]

end MCPSR

namespace MCPSR

theorem findFile_append_new (files : List FFile) (n : String) (f0 : FFile)
    (h : findFile files n = none) (hn : f0.name = n) :
    findFile (files ++ [f0]) n = some f0 := by
  induction files with
  | nil => simp [findFile, hn]
  | cons f t ih =>
    by_cases hf : f.name = n
    · rw [show findFile (f :: t) n = some f from by simp [findFile, hf]] at h
      cases h
    · rw [show findFile (f :: t) n = findFile t n from by simp [findFile, hf]] at h
      rw [List.cons_append,
          show findFile (f :: (t ++ [f0])) n = findFile (t ++ [f0]) n from by
            simp [findFile, hf]]
      exact ih h

theorem updateProject_ok (s : StorageState) (p : String) (u : UpdateProjectInput)
    (idx : IndexData) (m : ProjectMetadata) (d : ProjectDir)
    (hsan : sanitizeProjectName p = p) (hci : s.indexCache = some idx)
    (hm : lookupIdx idx.projects p = some m) (hst : m.status ≠ .completed)
    (hd : lookupDir s.dirs p = some d) :
    updateProject s p u =
      ({ s with
          dirs := updateDir
            (fun d0 => { d0 with projectJson := some (applyProjectUpdates m u s.now) })
            s.dirs p,
          indexFile := some
            { projects := setIdx idx.projects p (applyProjectUpdates m u s.now),
              lastActive := idx.lastActive },
          indexCache := none }, .ok (applyProjectUpdates m u s.now)) := by
  unfold updateProject
  rw [getProject_cached s p idx m hsan hci hm]
  dsimp only
  rw [if_neg hst, hsan, hd]
  dsimp only
  rw [readProjectIndex_cached
    { s with
        dirs := updateDir
          (fun d0 => { d0 with projectJson := some (applyProjectUpdates m u s.now) })
          s.dirs p }
    idx hci]

end MCPSR

namespace MCPSR

theorem createFindingWrite_ok (s : StorageState) (p : String) (F : Finding)
    (idx : IndexData) (m : ProjectMetadata) (d : ProjectDir) (files : List FFile)
    (hsan : sanitizeProjectName p = p) (hci : s.indexCache = some idx)
    (hm : lookupIdx idx.projects p = some m) (hst : m.status ≠ .completed)
    (hd : lookupDir s.dirs p = some d) (hfd : d.findingsDir = some files)
    (hnew : findFile files (F.id ++ ".md") = none) :
    ∃ s1, createFindingWrite s p F = (s1, .ok F) ∧
      s1.indexCache = none ∧
      s1.indexFile = some
        { projects := setIdx idx.projects p (applyProjectUpdates m {} s.now),
          lastActive := idx.lastActive } ∧
      ∃ d1, lookupDir s1.dirs p = some d1 ∧
        d1.findingsDir = some (files ++ [findingFileOf F s.now]) := by
  have hd1 : lookupDir (updateDir
      (fun dd => { dd with findingsDir := some (files ++ [findingFileOf F s.now]) })
      s.dirs p) p = some
      { d with findingsDir := some (files ++ [findingFileOf F s.now]) } := by
    rw [lookupDir_updateDir
      (fun dd => { dd with findingsDir := some (files ++ [findingFileOf F s.now]) })
      (fun d0 => rfl) s.dirs p, hd]
    rfl
  have hupd := updateProject_ok
    { s with
        dirs := updateDir
          (fun dd => { dd with findingsDir := some (files ++ [findingFileOf F s.now]) })
          s.dirs p }
    p {} idx m _ hsan hci hm hst hd1
  unfold createFindingWrite
  dsimp only
  rw [hsan, hd]
  dsimp only
  rw [hfd]
  dsimp only
  rw [hnew]
  simp only [Option.isSome_none, Bool.false_eq_true, if_false]
  rw [hupd]
  dsimp only
  refine ⟨_, rfl, rfl, rfl, ?_⟩
  refine
    ⟨{ name := d.name,
       projectJson := some (applyProjectUpdates m {} s.now),
       findingsDir := some (files ++ [findingFileOf F s.now]),
       auditsDir := d.auditsDir }, ?_, rfl⟩
  rw [lookupDir_updateDir
    (fun d0 => { d0 with projectJson := some (applyProjectUpdates m {} s.now) })
    (fun d0 => rfl) _ p, hd1]
  rfl

end MCPSR

namespace MCPSR

/-- C8 (amended to non-empty vectors): with the project present and not
completed, a `createFinding` whose non-empty `cvssString` is rejected by
the evaluator returns the invalid-CVSS error with the state byte-for-byte
unchanged (so no file was written and no timestamp bumped); when the
evaluator accepts the vector, the call succeeds and the persisted file's
frontmatter carries exactly the evaluator-derived score. -/
theorem c8_invalid_cvss_aborts_before_io
    (ext : String → Option Nat) (rh : String) (s : StorageState) (p : String)
    (input : FindingInput) (v : String) (idx : IndexData) (m : ProjectMetadata)
    (hsan : sanitizeProjectName p = p) (hci : s.indexCache = some idx)
    (hm : lookupIdx idx.projects p = some m) (hst : m.status ≠ .completed)
    (hv : input.cvssString = some v) (hne : v ≠ "") :
    (calculateCVSSScore ext v = none →
      createFinding ext rh s p input = (s, .error (.invalidCvss v))) ∧
    (∀ sc d files, calculateCVSSScore ext v = some sc →
      lookupDir s.dirs p = some d → d.findingsDir = some files →
      findFile files (sanitizeFindingId rh input.title ++ ".md") = none →
      ∃ s1 F, createFinding ext rh s p input = (s1, .ok F) ∧
        F.cvssScore = some sc ∧
        (findingFileOf F s.now).front.cvssScore = some sc ∧
        ∃ d1, lookupDir s1.dirs p = some d1 ∧
          d1.findingsDir = some (files ++ [findingFileOf F s.now])) := by
  unfold createFinding
  rw [getProject_cached s p idx m hsan hci hm]
  dsimp only
  rw [checkNotCompleted_ok s p "create finding" idx m hsan hci hm hst]
  dsimp only
  rw [hv]
  dsimp only
  rw [if_neg hne]
  constructor
  · intro h
    rw [h]
  · intro sc d files hsc hd hfd hnew
    rw [hsc]
    dsimp only
    obtain ⟨s1, heq, _, _, d1, hld, hfd1⟩ :=
      createFindingWrite_ok s p
        { id := sanitizeFindingId rh input.title, title := input.title,
          severity := input.severity, cwe := input.cwe,
          cvssString := some v, cvssScore := some sc,
          components := input.components, description := input.description,
          evidence := input.evidence, recommendations := input.recommendations,
          created := s.now, updated := s.now }
        idx m d files hsan hci hm hst hd hfd hnew
    exact ⟨s1, _, heq, rfl, rfl, d1, hld, hfd1⟩

end MCPSR

namespace MCPSR

/-- C8 counterexample to the original claim: the evaluator rejects the
empty vector, yet `createFinding` with `cvssString := some ""` succeeds
(JS truthiness skips the whole CVSS block), so a rejected vector does not
always abort the call. -/
theorem c8_counterexample :
    calculateCVSSScore (fun _ => none) "" = none ∧
    (createFinding (fun _ => none) "deadbeef" pState "proj" cex8Input).2 =
      .ok { id := sanitizeFindingId "deadbeef" "T", title := "T", severity := "High",
            cwe := none, cvssString := some "", cvssScore := none, components := none,
            description := "d", evidence := none, recommendations := none,
            created := 100, updated := 100 } := by
  constructor
  · decide
  · decide

/-- C8 witness: on the concrete one-project store, a non-empty vector the
evaluator rejects makes `createFinding` fail with the invalid-CVSS error
and leave the state untouched. -/
theorem c8_invalid_cvss_aborts_before_io_witness :
    createFinding (fun _ => none) "deadbeef" pState "proj" w8Input =
      (pState, .error (.invalidCvss "CVSS:3.1/AV:N")) :=
  (c8_invalid_cvss_aborts_before_io (fun _ => none) "deadbeef" pState "proj" w8Input
    "CVSS:3.1/AV:N" projIdx metaInProgress (by decide) rfl rfl (by decide) rfl
    (by decide)).1 (by decide)

end MCPSR

namespace MCPSR

theorem length_dropWhile_le (p : Char → Bool) (l : List Char) :
    (l.dropWhile p).length ≤ l.length := by
  induction l with
  | nil => simp
  | cons c t ih =>
    rw [List.dropWhile_cons]
    split
    · exact Nat.le_trans ih (Nat.le_succ _)
    · exact Nat.le_refl _

theorem dropWhile_eq_self_of_length (p : Char → Bool) (l : List Char)
    (h : (l.dropWhile p).length = l.length) : l.dropWhile p = l := by
  cases l with
  | nil => rfl
  | cons c t =>
    by_cases hc : p c = true
    · exfalso
      rw [List.dropWhile_cons, if_pos hc] at h
      have h2 := length_dropWhile_le p t
      simp only [List.length_cons] at h
      omega
    · rw [List.dropWhile_cons, if_neg hc]

theorem trimL_dropWhile (l : List Char) (h : trimL l = l) :
    l.dropWhile isJsSpace = l := by
  apply dropWhile_eq_self_of_length
  have h1 : (trimL l).length = l.length := by rw [h]
  have h2 : (trimL l).length ≤ (l.dropWhile isJsSpace).length := by
    unfold trimL
    rw [List.length_reverse]
    calc ((l.dropWhile isJsSpace).reverse.dropWhile isJsSpace).length
        ≤ (l.dropWhile isJsSpace).reverse.length := length_dropWhile_le _ _
      _ = (l.dropWhile isJsSpace).length := List.length_reverse _
  have h3 := length_dropWhile_le isJsSpace l
  omega

theorem trimL_rev_dropWhile (l : List Char) (h : trimL l = l) :
    l.reverse.dropWhile isJsSpace = l.reverse := by
  have h1 := trimL_dropWhile l h
  have h2 : trimL l = (l.reverse.dropWhile isJsSpace).reverse := by
    unfold trimL
    rw [h1]
  rw [h] at h2
  have h3 := congrArg List.reverse h2
  rw [List.reverse_reverse] at h3
  exact h3.symm

theorem head_not_ws_of_trimmed (c : Char) (t : List Char)
    (h : trimL (c :: t) = c :: t) : isJsSpace c = false := by
  have h1 := trimL_dropWhile (c :: t) h
  by_cases hc : isJsSpace c = true
  · exfalso
    rw [List.dropWhile_cons, if_pos hc] at h1
    have h2 := length_dropWhile_le isJsSpace t
    have h3 := congrArg List.length h1
    simp only [List.length_cons] at h3
    omega
  · simpa using hc

theorem dropWhile_append_all (p : Char → Bool) (a b : List Char)
    (h : ∀ c ∈ a, p c = true) : (a ++ b).dropWhile p = b.dropWhile p := by
  induction a with
  | nil => rfl
  | cons c t ih =>
    rw [List.cons_append, List.dropWhile_cons, if_pos (h c (by simp))]
    exact ih (fun c' hc' => h c' (by simp [hc']))

theorem trimL_append_ws (t w : List Char) (h : trimL t = t) (hne : t ≠ [])
    (hw : ∀ c ∈ w, isJsSpace c = true) : trimL (t ++ w) = t := by
  obtain ⟨c, t', rfl⟩ : ∃ c t', t = c :: t' := by
    cases t with
    | nil => exact absurd rfl hne
    | cons c t' => exact ⟨c, t', rfl⟩
  have hc := head_not_ws_of_trimmed c t' h
  unfold trimL
  rw [List.cons_append, List.dropWhile_cons, if_neg (by simp [hc]),
      ← List.cons_append, List.reverse_append,
      dropWhile_append_all _ _ _ (fun c' hc' => hw c' (by simpa using hc')),
      trimL_rev_dropWhile (c :: t') h, List.reverse_reverse]

end MCPSR

namespace MCPSR

theorem isPre_prefix_mono (p q l : List Char) (h : isPre (p ++ q) l = true) :
    isPre p l = true := by
  induction p generalizing l with
  | nil => rfl
  | cons c t ih =>
    cases l with
    | nil => simp [isPre] at h
    | cons b l' =>
      rw [List.cons_append] at h
      unfold isPre at h ⊢
      by_cases hc : c = b
      · rw [if_pos hc] at h ⊢
        exact ih l' h
      · rw [if_neg hc] at h
        exact absurd h (by simp)

theorem isPre_take_of_append (p a b : List Char) (h : isPre p (a ++ b) = true) :
    isPre (p.take a.length) a = true := by
  induction p generalizing a with
  | nil => simp [isPre]
  | cons c t ih =>
    cases a with
    | nil => rfl
    | cons x a' =>
      rw [List.cons_append] at h
      unfold isPre at h
      rw [List.length_cons, List.take_succ_cons]
      unfold isPre
      by_cases hc : c = x
      · rw [if_pos hc] at h ⊢
        exact ih a' h
      · rw [if_neg hc] at h
        exact absurd h (by simp)

theorem isPre_map (f : Char → Char) (p l : List Char) (h : isPre p l = true) :
    isPre (p.map f) (l.map f) = true := by
  induction p generalizing l with
  | nil => rfl
  | cons c t ih =>
    cases l with
    | nil => exact absurd h (by simp [isPre])
    | cons b l' =>
      unfold isPre at h
      by_cases hc : c = b
      · rw [if_pos hc] at h
        rw [List.map_cons, List.map_cons]
        unfold isPre
        rw [if_pos (by rw [hc])]
        exact ih l' h
      · rw [if_neg hc] at h
        exact absurd h (by simp)

theorem hasSub_cons_of (p : List Char) (c : Char) (t : List Char)
    (h : hasSub p t = true) : hasSub p (c :: t) = true := by
  simp [hasSub, h]

theorem hasSub_of_isPre_drop (p l : List Char) (n : Nat)
    (h : isPre p (l.drop n) = true) : hasSub p l = true := by
  induction l generalizing n with
  | nil =>
    rw [List.drop_nil] at h
    unfold hasSub
    exact h
  | cons c t ih =>
    cases n with
    | zero =>
      rw [List.drop_zero] at h
      simp [hasSub, h]
    | succ k =>
      rw [List.drop_succ_cons] at h
      exact hasSub_cons_of p c t (ih k h)

theorem hasSub_map (f : Char → Char) (p l : List Char) (h : hasSub p l = true) :
    hasSub (p.map f) (l.map f) = true := by
  induction l with
  | nil =>
    unfold hasSub at h ⊢
    cases p with
    | nil => rfl
    | cons _ _ => exact absurd h (by simp [isPre])
  | cons c t ih =>
    unfold hasSub at h
    rw [List.map_cons]
    unfold hasSub
    rcases (Bool.or_eq_true _ _).mp h with h1 | h2
    · have h3 := isPre_map f p (c :: t) h1
      rw [List.map_cons] at h3
      simp [h3]
    · simp [ih h2]

theorem hasSub_tail_pat (c : Char) (p l : List Char) (h : hasSub (c :: p) l = true) :
    hasSub p l = true := by
  induction l with
  | nil => exact absurd h (by simp [hasSub, isPre])
  | cons b t ih =>
    unfold hasSub at h
    rcases (Bool.or_eq_true _ _).mp h with h1 | h2
    · unfold isPre at h1
      by_cases hc : c = b
      · rw [if_pos hc] at h1
        exact hasSub_cons_of p b t (hasSub_of_isPre_drop p t 0 (by simpa using h1))
      · rw [if_neg hc] at h1
        exact absurd h1 (by simp)
    · exact hasSub_cons_of p b t (ih h2)

theorem hasSub_nlHH_of_no_hh (t : List Char) (h : hasSub hh (lc t) = false) :
    hasSub nlHH t = false := by
  by_contra hcon
  rw [Bool.not_eq_false] at hcon
  have h1 := hasSub_map Char.toLower nlHH t hcon
  have h2 : List.map Char.toLower nlHH = nlHH := by decide
  rw [h2] at h1
  have h3 : hasSub hh (lc t) = true := hasSub_tail_pat '\n' hh (lc t) h1
  rw [h3] at h
  exact absurd h (by decide)

theorem exists_isPre_of_hasSub (p l : List Char) (h : hasSub p l = true) :
    ∃ n, isPre p (l.drop n) = true := by
  induction l with
  | nil => exact ⟨0, by simpa [hasSub] using h⟩
  | cons c t ih =>
    unfold hasSub at h
    rcases (Bool.or_eq_true _ _).mp h with h1 | h2
    · exact ⟨0, by simpa using h1⟩
    · obtain ⟨n, hn⟩ := ih h2
      exact ⟨n + 1, by simpa [List.drop_succ_cons] using hn⟩

theorem firstOcc_none_of_no_sub (p l : List Char) (h : hasSub p l = false) :
    firstOcc p l = none := by
  induction l with
  | nil =>
    unfold hasSub at h
    unfold firstOcc
    simp [h]
  | cons c t ih =>
    unfold hasSub at h
    rw [Bool.or_eq_false_iff] at h
    unfold firstOcc
    rw [if_neg (by simp [h.1]), ih h.2]
    rfl

theorem firstOcc_append_shift (p a b : List Char)
    (h : ∀ n, n < a.length → isPre p (a.drop n ++ b) = false) :
    firstOcc p (a ++ b) = (firstOcc p b).map (· + a.length) := by
  induction a with
  | nil =>
    rw [List.nil_append]
    cases firstOcc p b <;> simp
  | cons c t ih =>
    have h0 : isPre p (c :: (t ++ b)) = false := by
      have h1 := h 0 (by simp)
      simpa using h1
    have ht : ∀ n, n < t.length → isPre p (t.drop n ++ b) = false := by
      intro n hn
      have h1 := h (n + 1) (by simp; omega)
      simpa [List.drop_succ_cons] using h1
    rw [List.cons_append,
        show firstOcc p (c :: (t ++ b)) =
          if isPre p (c :: (t ++ b)) then some 0
          else (firstOcc p (t ++ b)).map (· + 1) from rfl]
    rw [if_neg (by simp [h0]), ih ht]
    cases firstOcc p b with
    | none => rfl
    | some k => simp [List.length_cons, Nat.add_assoc]

end MCPSR

namespace MCPSR

theorem spill_nlHH (text : List Char) (n : Nat) (hlt : n < text.length)
    (post : List Char) (hno : hasSub nlHH text = false)
    (g1 : isPre ['#', '#', ' '] post = false)
    (g2 : isPre ['#', ' '] post = false)
    (g3 : isPre [' '] post = false) :
    isPre nlHH (text.drop n ++ post) = false := by
  by_contra hcon
  rw [Bool.not_eq_false] at hcon
  rcases hd : text.drop n with _ | ⟨c1, _ | ⟨c2, _ | ⟨c3, _ | ⟨c4, t4⟩⟩⟩⟩
  · have h1 := congrArg List.length hd
    simp only [List.length_drop, List.length_nil] at h1
    omega
  · rw [hd] at hcon
    simp [nlHH, isPre, g1] at hcon
  · rw [hd] at hcon
    simp [nlHH, isPre, g2] at hcon
  · rw [hd] at hcon
    simp [nlHH, isPre, g3] at hcon
  · rw [hd] at hcon
    have h1 := isPre_take_of_append nlHH (c1 :: c2 :: c3 :: c4 :: t4) post hcon
    have h2 : nlHH.take (c1 :: c2 :: c3 :: c4 :: t4).length = nlHH := by
      apply List.take_of_length_le
      simp only [nlHH, List.length_cons, List.length_nil]
      omega
    rw [h2] at h1
    have h3 := hasSub_of_isPre_drop nlHH text n (by rw [hd]; exact h1)
    rw [h3] at hno
    exact absurd hno (by decide)

theorem captureUntil_terminated (text rest : List Char)
    (hno : hasSub nlHH text = false) (hrest : isPre hh rest = true) :
    captureUntil (text ++ '\n' :: '\n' :: rest) = text ++ ['\n'] := by
  have hregroup : text ++ '\n' :: '\n' :: rest = (text ++ ['\n']) ++ ('\n' :: rest) := by
    simp
  have hpos : ∀ n, n < (text ++ ['\n']).length →
      isPre nlHH ((text ++ ['\n']).drop n ++ ('\n' :: rest)) = false := by
    intro n hn
    rw [List.length_append, List.length_cons, List.length_nil] at hn
    by_cases hlt : n < text.length
    · rw [List.drop_append_of_le_length (Nat.le_of_lt hlt), List.append_assoc]
      exact spill_nlHH text n hlt ('\n' :: '\n' :: rest) hno
        (by simp [isPre]) (by simp [isPre]) (by simp [isPre])
    · have hn' : n = text.length := by omega
      subst hn'
      rw [List.drop_append_of_le_length (Nat.le_refl _), List.drop_length,
          List.nil_append, List.cons_append, List.nil_append]
      simp [nlHH, isPre]
  have hfo : firstOcc nlHH (text ++ '\n' :: '\n' :: rest) = some (text.length + 1) := by
    rw [hregroup, firstOcc_append_shift nlHH (text ++ ['\n']) ('\n' :: rest) hpos]
    have hstep : firstOcc nlHH ('\n' :: rest) = some 0 := by
      have h1 : isPre nlHH ('\n' :: rest) = true := by
        rw [show nlHH = '\n' :: hh from rfl]
        simp [isPre, hrest]
      rw [show firstOcc nlHH ('\n' :: rest) =
            if isPre nlHH ('\n' :: rest) then some 0
            else (firstOcc nlHH rest).map (· + 1) from rfl,
          if_pos (by simp [h1])]
    rw [hstep]
    simp [List.length_append]
  unfold captureUntil
  rw [hfo]
  show List.take (text.length + 1) (text ++ '\n' :: '\n' :: rest) = text ++ ['\n']
  rw [List.take_append 1]
  rfl

end MCPSR

namespace MCPSR

theorem captureUntil_nn (text : List Char) (hno : hasSub nlHH text = false) :
    captureUntil (text ++ ['\n', '\n']) = text ++ ['\n', '\n'] := by
  have hsub : hasSub nlHH (text ++ ['\n', '\n']) = false := by
    by_contra hcon
    rw [Bool.not_eq_false] at hcon
    obtain ⟨n, hn⟩ := exists_isPre_of_hasSub _ _ hcon
    by_cases hlt : n < text.length
    · rw [List.drop_append_of_le_length (Nat.le_of_lt hlt)] at hn
      rw [spill_nlHH text n hlt ['\n', '\n'] hno (by decide) (by decide) (by decide)] at hn
      exact absurd hn (by decide)
    · obtain ⟨k, rfl⟩ : ∃ k, n = text.length + k := ⟨n - text.length, by omega⟩
      rw [List.drop_append] at hn
      match k with
      | 0 => exact absurd hn (by decide)
      | 1 => exact absurd hn (by decide)
      | k2 + 2 =>
        rw [List.drop_eq_nil_of_le (by simp)] at hn
        exact absurd hn (by decide)
  unfold captureUntil
  rw [firstOcc_none_of_no_sub _ _ hsub]

theorem captureUntil_free (text : List Char) (hno : hasSub nlHH text = false) :
    captureUntil text = text := by
  unfold captureUntil
  rw [firstOcc_none_of_no_sub _ _ hno]

theorem sectionTail_nl2 (text tail : List Char) (htrim : trimL text = text)
    (hne : text ≠ []) :
    sectionTail ('\n' :: '\n' :: (text ++ tail)) = some (captureUntil (text ++ tail)) := by
  obtain ⟨c, t', rfl⟩ : ∃ c t', text = c :: t' := by
    cases text with
    | nil => exact absurd rfl hne
    | cons c t' => exact ⟨c, t', rfl⟩
  have hc := head_not_ws_of_trimmed c t' htrim
  unfold sectionTail
  have hws : ('\n' :: '\n' :: (c :: t' ++ tail)).takeWhile isJsSpace = ['\n', '\n'] := by
    rw [List.takeWhile_cons, if_pos (by decide), List.takeWhile_cons, if_pos (by decide),
        List.cons_append, List.takeWhile_cons, if_neg (by simp [hc])]
  dsimp only
  rw [hws, if_pos (by decide : '\n' ∈ ['\n', '\n'])]
  rfl

end MCPSR

namespace MCPSR

theorem extractGo_of_tryAt (header l : List Char) (cap : List Char) (hl : l ≠ [])
    (h : tryAt header l = some cap) : extractGo header l = some cap := by
  cases l with
  | nil => exact absurd rfl hl
  | cons c t =>
    unfold extractGo
    rw [h]

theorem extractGo_skip (header pre post : List Char)
    (h : ∀ n, n < pre.length → tryAt header (pre.drop n ++ post) = none) :
    extractGo header (pre ++ post) = extractGo header post := by
  induction pre with
  | nil => rfl
  | cons c t ih =>
    have h0 : tryAt header (c :: (t ++ post)) = none := by
      have h1 := h 0 (by simp)
      simpa using h1
    have hstep : extractGo header (c :: (t ++ post)) = extractGo header (t ++ post) := by
      rw [show extractGo header (c :: (t ++ post)) =
            (match tryAt header (c :: (t ++ post)) with
             | some cap => some cap
             | none => extractGo header (t ++ post)) from rfl,
          h0]
    rw [List.cons_append, hstep]
    exact ih (fun n hn => by
      have h2 := h (n + 1) (by simp; omega)
      simpa [List.drop_succ_cons] using h2)

theorem tryAt_append_none (header a b : List Char)
    (h : isPre (header.take a.length) (lc a) = false) :
    tryAt header (a ++ b) = none := by
  have hc : ¬ (isPre header (lc (a ++ b)) = true) := by
    intro hcon
    have h1 : lc (a ++ b) = lc a ++ lc b := List.map_append _ _ _
    rw [h1] at hcon
    have h2 := isPre_take_of_append header (lc a) (lc b) hcon
    have h3 : (lc a).length = a.length := List.length_map _ _
    rw [h3] at h2
    rw [h2] at h
    exact absurd h (by decide)
  unfold tryAt
  rw [if_neg hc]

theorem extractGo_skip_lit (header lit post : List Char)
    (h : ∀ n, n < lit.length →
      isPre (header.take (lit.length - n)) (lc (lit.drop n)) = false) :
    extractGo header (lit ++ post) = extractGo header post := by
  apply extractGo_skip
  intro n hn
  apply tryAt_append_none
  have hlen : (lit.drop n).length = lit.length - n := List.length_drop _ _
  rw [hlen]
  exact h n hn

theorem extractGo_skip_var (q text post : List Char)
    (hno : hasSub hh (lc text) = false)
    (g1 : isPre ['#', ' '] (lc post) = false)
    (g2 : isPre [' '] (lc post) = false) :
    extractGo (hh ++ q) (text ++ post) = extractGo (hh ++ q) post := by
  apply extractGo_skip
  intro n hn
  unfold tryAt
  rw [if_neg]
  intro hcon
  have hpre := isPre_prefix_mono hh q _ hcon
  have hlc : lc (text.drop n ++ post) = lc (text.drop n) ++ lc post :=
    List.map_append _ _ _
  rw [hlc] at hpre
  rcases hd : text.drop n with _ | ⟨c1, _ | ⟨c2, _ | ⟨c3, t3⟩⟩⟩
  · have h1 := congrArg List.length hd
    simp only [List.length_drop, List.length_nil] at h1
    omega
  · rw [hd] at hpre
    rw [show lc [c1] ++ lc post = Char.toLower c1 :: lc post from rfl] at hpre
    simp [hh, isPre, g1] at hpre
  · rw [hd] at hpre
    rw [show lc [c1, c2] ++ lc post =
          Char.toLower c1 :: Char.toLower c2 :: lc post from rfl] at hpre
    simp [hh, isPre, g2] at hpre
  · rw [hd] at hpre
    have h1 := isPre_take_of_append hh (lc (c1 :: c2 :: c3 :: t3)) (lc post) hpre
    have h2 : hh.take (lc (c1 :: c2 :: c3 :: t3)).length = hh := by
      apply List.take_of_length_le
      simp only [hh, lc, List.length_map, List.length_cons, List.length_nil]
      omega
    rw [h2] at h1
    have h3 : lc (c1 :: c2 :: c3 :: t3) = (lc text).drop n := by
      rw [← hd]
      exact List.map_drop _ _ _
    rw [h3] at h1
    have h4 := hasSub_of_isPre_drop hh (lc text) n h1
    rw [h4] at hno
    exact absurd hno (by decide)

theorem extractSection_eq (name : String) (body : List Char) :
    extractSection name body = (extractGo (hh ++ lc (strL name)) body).map trimL := rfl

theorem truthy_getD (e : Option String) (h : truthy e = true) : some (e.getD "") = e := by
  cases e with
  | none => simp [truthy] at h
  | some t => rfl

theorem data_ne_nil (s : String) (h : s ≠ "") : s.data ≠ [] := by
  intro hd
  apply h
  cases s
  cases hd
  rfl

theorem lookupIdx_setIdx (l : List (String × ProjectMetadata)) (k : String)
    (v : ProjectMetadata) : lookupIdx (setIdx l k v) k = some v := by
  induction l with
  | nil => simp [setIdx, lookupIdx]
  | cons kv t ih =>
    obtain ⟨k', v'⟩ := kv
    by_cases hk : k' = k
    · simp [setIdx, hk, lookupIdx]
    · simp [setIdx, hk, lookupIdx, ih]

end MCPSR

namespace MCPSR

theorem getFinding_found_uncached (s : StorageState) (p fid : String) (idx1 : IndexData)
    (m1 : ProjectMetadata) (d1 : ProjectDir) (files1 : List FFile) (f : FFile)
    (hsan : sanitizeProjectName p = p) (hci : s.indexCache = none)
    (hfi : s.indexFile = some idx1) (hm : lookupIdx idx1.projects p = some m1)
    (hd : lookupDir s.dirs p = some d1) (hfd : d1.findingsDir = some files1)
    (hff : findFile files1 (fid ++ ".md") = some f) :
    getFinding s p fid = ({ s with indexCache := some idx1 }, .ok
      { id := f.front.id, title := f.front.title, severity := f.front.severity,
        cwe := f.front.cwe, cvssString := f.front.cvssString,
        cvssScore := f.front.cvssScore, components := f.front.components,
        description := String.mk ((extractSection "Description" f.body).getD []),
        evidence := (extractSection "Evidence" f.body).map String.mk,
        recommendations := (extractSection "Recommendations" f.body).map String.mk,
        created := f.front.created, updated := f.front.updated }) := by
  have hrd : readProjectIndex s = ({ s with indexCache := some idx1 }, .ok idx1) := by
    unfold readProjectIndex
    rw [hci]
    dsimp only
    rw [hfi]
  have hgp : getProject s p = ({ s with indexCache := some idx1 }, .ok m1) := by
    unfold getProject
    rw [hrd]
    dsimp only
    rw [hsan, hm]
  unfold getFinding
  rw [hgp]
  dsimp only
  rw [hsan]
  rw [show ({ s with indexCache := some idx1 } : StorageState).dirs = s.dirs from rfl, hd]
  dsimp only
  rw [hfd]
  dsimp only
  rw [hff]

end MCPSR

namespace MCPSR

theorem lit_append_ne_nil (c : Char) (t X : List Char) : (c :: t) ++ X ≠ [] := by simp

theorem g1_of_nl (x : List Char) : isPre ['#', ' '] (lc ('\n' :: x)) = false := by
  show isPre ['#', ' '] ('\n' :: lc x) = false
  simp [isPre]

theorem g2_of_nl (x : List Char) : isPre [' '] (lc ('\n' :: x)) = false := by
  show isPre [' '] ('\n' :: lc x) = false
  simp [isPre]

theorem g1_of_nil : isPre ['#', ' '] (lc []) = false := by decide

theorem g2_of_nil : isPre [' '] (lc []) = false := by decide

theorem extractGo_skip_nl2 (q X : List Char) :
    extractGo (hh ++ q) ('\n' :: '\n' :: X) = extractGo (hh ++ q) X := by
  have hcond : ∀ n, n < (['\n', '\n'] : List Char).length →
      isPre ((hh ++ q).take ((['\n', '\n'] : List Char).length - n))
        (lc ((['\n', '\n'] : List Char).drop n)) = false := by
    intro n hn
    rcases n with _ | _ | n2
    · rfl
    · rfl
    · rw [List.length_cons, List.length_cons, List.length_nil] at hn
      omega
  have h := extractGo_skip_lit (hh ++ q) ['\n', '\n'] X hcond
  simpa using h

theorem skipA_evidence (X : List Char) :
    extractGo (hh ++ lc (strL "Evidence")) (strL "## Description\n\n" ++ X)
      = extractGo (hh ++ lc (strL "Evidence")) X :=
  extractGo_skip_lit _ _ _ (by decide)

theorem skipRH_evidence (X : List Char) :
    extractGo (hh ++ lc (strL "Evidence")) (strL "## Recommendations\n\n" ++ X)
      = extractGo (hh ++ lc (strL "Evidence")) X :=
  extractGo_skip_lit _ _ _ (by decide)

theorem skipA_rec (X : List Char) :
    extractGo (hh ++ lc (strL "Recommendations")) (strL "## Description\n\n" ++ X)
      = extractGo (hh ++ lc (strL "Recommendations")) X :=
  extractGo_skip_lit _ _ _ (by decide)

theorem skipEH_rec (X : List Char) :
    extractGo (hh ++ lc (strL "Recommendations")) (strL "## Evidence\n\n" ++ X)
      = extractGo (hh ++ lc (strL "Recommendations")) X :=
  extractGo_skip_lit _ _ _ (by decide)

theorem extractDescription_general (dL rest : List Char)
    (hd1 : trimL dL = dL) (hd2 : dL ≠ []) (hnn : hasSub nlHH dL = false)
    (hrest : isPre hh rest = true) :
    (extractGo (hh ++ lc (strL "Description"))
        (strL "## Description\n\n" ++ (dL ++ ('\n' :: '\n' :: rest)))).map trimL
      = some dL := by
  have hsome : tryAt (hh ++ lc (strL "Description"))
      (strL "## Description\n\n" ++ (dL ++ ('\n' :: '\n' :: rest)))
      = some (captureUntil (dL ++ '\n' :: '\n' :: rest)) := by
    rw [show tryAt (hh ++ lc (strL "Description"))
          (strL "## Description\n\n" ++ (dL ++ ('\n' :: '\n' :: rest)))
        = sectionTail ('\n' :: '\n' :: (dL ++ '\n' :: '\n' :: rest)) from rfl]
    exact sectionTail_nl2 dL ('\n' :: '\n' :: rest) hd1 hd2
  rw [extractGo_of_tryAt _ _ _ (by apply lit_append_ne_nil) hsome,
      captureUntil_terminated dL rest hnn hrest]
  show some (trimL (dL ++ ['\n'])) = some dL
  rw [trimL_append_ws dL ['\n'] hd1 hd2 (by decide)]

theorem extractDescription_end_general (dL : List Char)
    (hd1 : trimL dL = dL) (hd2 : dL ≠ []) (hnn : hasSub nlHH dL = false) :
    (extractGo (hh ++ lc (strL "Description"))
        (strL "## Description\n\n" ++ (dL ++ ['\n', '\n']))).map trimL = some dL := by
  have hsome : tryAt (hh ++ lc (strL "Description"))
      (strL "## Description\n\n" ++ (dL ++ ['\n', '\n']))
      = some (captureUntil (dL ++ ['\n', '\n'])) := by
    rw [show tryAt (hh ++ lc (strL "Description"))
          (strL "## Description\n\n" ++ (dL ++ ['\n', '\n']))
        = sectionTail ('\n' :: '\n' :: (dL ++ ['\n', '\n'])) from rfl]
    exact sectionTail_nl2 dL ['\n', '\n'] hd1 hd2
  rw [extractGo_of_tryAt _ _ _ (by apply lit_append_ne_nil) hsome,
      captureUntil_nn dL hnn]
  show some (trimL (dL ++ ['\n', '\n'])) = some dL
  rw [trimL_append_ws dL ['\n', '\n'] hd1 hd2 (by decide)]

theorem extractEvidence_found_general (eL rest : List Char)
    (he1 : trimL eL = eL) (hene : eL ≠ []) (hnn : hasSub nlHH eL = false)
    (hrest : isPre hh rest = true) :
    (extractGo (hh ++ lc (strL "Evidence"))
        (strL "## Evidence\n\n" ++ (eL ++ ('\n' :: '\n' :: rest)))).map trimL
      = some eL := by
  have hsome : tryAt (hh ++ lc (strL "Evidence"))
      (strL "## Evidence\n\n" ++ (eL ++ ('\n' :: '\n' :: rest)))
      = some (captureUntil (eL ++ '\n' :: '\n' :: rest)) := by
    rw [show tryAt (hh ++ lc (strL "Evidence"))
          (strL "## Evidence\n\n" ++ (eL ++ ('\n' :: '\n' :: rest)))
        = sectionTail ('\n' :: '\n' :: (eL ++ '\n' :: '\n' :: rest)) from rfl]
    exact sectionTail_nl2 eL ('\n' :: '\n' :: rest) he1 hene
  rw [extractGo_of_tryAt _ _ _ (by apply lit_append_ne_nil) hsome,
      captureUntil_terminated eL rest hnn hrest]
  show some (trimL (eL ++ ['\n'])) = some eL
  rw [trimL_append_ws eL ['\n'] he1 hene (by decide)]

theorem extractEvidence_end_general (eL : List Char)
    (he1 : trimL eL = eL) (hene : eL ≠ []) (hnn : hasSub nlHH eL = false) :
    (extractGo (hh ++ lc (strL "Evidence"))
        (strL "## Evidence\n\n" ++ (eL ++ ['\n', '\n']))).map trimL = some eL := by
  have hsome : tryAt (hh ++ lc (strL "Evidence"))
      (strL "## Evidence\n\n" ++ (eL ++ ['\n', '\n']))
      = some (captureUntil (eL ++ ['\n', '\n'])) := by
    rw [show tryAt (hh ++ lc (strL "Evidence"))
          (strL "## Evidence\n\n" ++ (eL ++ ['\n', '\n']))
        = sectionTail ('\n' :: '\n' :: (eL ++ ['\n', '\n'])) from rfl]
    exact sectionTail_nl2 eL ['\n', '\n'] he1 hene
  rw [extractGo_of_tryAt _ _ _ (by apply lit_append_ne_nil) hsome,
      captureUntil_nn eL hnn]
  show some (trimL (eL ++ ['\n', '\n'])) = some eL
  rw [trimL_append_ws eL ['\n', '\n'] he1 hene (by decide)]

theorem extractRec_found_general (rL : List Char)
    (hr1 : trimL rL = rL) (hrne : rL ≠ []) (hnn : hasSub nlHH rL = false) :
    (extractGo (hh ++ lc (strL "Recommendations"))
        (strL "## Recommendations\n\n" ++ rL)).map trimL = some rL := by
  have hsome : tryAt (hh ++ lc (strL "Recommendations"))
      (strL "## Recommendations\n\n" ++ rL)
      = some (captureUntil (rL ++ [])) := by
    rw [show tryAt (hh ++ lc (strL "Recommendations"))
          (strL "## Recommendations\n\n" ++ rL)
        = sectionTail ('\n' :: '\n' :: rL) from rfl]
    rw [show ('\n' :: '\n' :: rL : List Char) = '\n' :: '\n' :: (rL ++ []) from by
          rw [List.append_nil]]
    exact sectionTail_nl2 rL [] hr1 hrne
  rw [extractGo_of_tryAt _ _ _ (by apply lit_append_ne_nil) hsome, List.append_nil,
      captureUntil_free rL hnn]
  show some (trimL rL) = some rL
  rw [hr1]

end MCPSR

namespace MCPSR

theorem extractSection_description (d : String) (e r : Option String)
    (hd1 : trimL d.data = d.data) (hd2 : d.data ≠ [])
    (hd3 : hasSub hh (lc d.data) = false) :
    extractSection "Description" (renderFindingBody d e r) = some d.data := by
  have hnn : hasSub nlHH d.data = false := hasSub_nlHH_of_no_hh _ hd3
  rw [extractSection_eq]
  unfold renderFindingBody
  by_cases he : truthy e = true
  · rw [if_pos he, show (strL "\n\n" : List Char) = ['\n', '\n'] from rfl]
    simp only [List.append_assoc, List.cons_append, List.nil_append]
    exact extractDescription_general d.data _ hd1 hd2 hnn rfl
  · rw [if_neg he]
    by_cases hr : truthy r = true
    · rw [if_pos hr, show (strL "\n\n" : List Char) = ['\n', '\n'] from rfl]
      simp only [List.append_assoc, List.cons_append, List.nil_append]
      exact extractDescription_general d.data _ hd1 hd2 hnn rfl
    · rw [if_neg hr, show (strL "\n\n" : List Char) = ['\n', '\n'] from rfl]
      simp only [List.append_assoc, List.cons_append, List.nil_append, List.append_nil]
      exact extractDescription_end_general d.data hd1 hd2 hnn

end MCPSR

namespace MCPSR

theorem truthy_ne_nil (e : Option String) (h : truthy e = true) :
    (e.getD "").data ≠ [] := by
  cases e with
  | none => simp [truthy] at h
  | some t =>
    show t.data ≠ []
    apply data_ne_nil
    intro ht
    rw [ht] at h
    simp [truthy] at h

theorem extractSection_evidence_some (d : String) (e r : Option String)
    (hd3 : hasSub hh (lc d.data) = false) (he : truthy e = true)
    (he1 : trimL (e.getD "").data = (e.getD "").data)
    (he3 : hasSub hh (lc (e.getD "").data) = false) :
    extractSection "Evidence" (renderFindingBody d e r) = some (e.getD "").data := by
  have hene := truthy_ne_nil e he
  have hnn : hasSub nlHH (e.getD "").data = false := hasSub_nlHH_of_no_hh _ he3
  rw [extractSection_eq]
  unfold renderFindingBody
  rw [if_pos he, show (strL "\n\n" : List Char) = ['\n', '\n'] from rfl]
  simp only [List.append_assoc, List.cons_append, List.nil_append]
  rw [skipA_evidence,
      extractGo_skip_var (lc (strL "Evidence")) d.data _ hd3 (g1_of_nl _) (g2_of_nl _),
      extractGo_skip_nl2]
  by_cases hr : truthy r = true
  · rw [if_pos hr]
    exact extractEvidence_found_general (e.getD "").data _ he1 hene hnn rfl
  · rw [if_neg hr]
    exact extractEvidence_end_general (e.getD "").data he1 hene hnn

theorem extractSection_evidence_none (d : String) (e r : Option String)
    (hd3 : hasSub hh (lc d.data) = false) (he : truthy e = false)
    (hr3 : truthy r = true → hasSub hh (lc (r.getD "").data) = false) :
    extractSection "Evidence" (renderFindingBody d e r) = none := by
  rw [extractSection_eq]
  unfold renderFindingBody
  rw [if_neg (by simp [he]), show (strL "\n\n" : List Char) = ['\n', '\n'] from rfl]
  simp only [List.append_assoc, List.cons_append, List.nil_append]
  rw [skipA_evidence,
      extractGo_skip_var (lc (strL "Evidence")) d.data _ hd3 (g1_of_nl _) (g2_of_nl _),
      extractGo_skip_nl2]
  by_cases hr : truthy r = true
  · rw [if_pos hr, skipRH_evidence,
        show ((r.getD "").data : List Char) = (r.getD "").data ++ [] from
          (List.append_nil _).symm,
        extractGo_skip_var (lc (strL "Evidence")) (r.getD "").data [] (hr3 hr)
          g1_of_nil g2_of_nil]
    rfl
  · rw [if_neg hr]
    rfl

theorem extractSection_rec_some (d : String) (e r : Option String)
    (hd3 : hasSub hh (lc d.data) = false)
    (he3 : truthy e = true → hasSub hh (lc (e.getD "").data) = false)
    (hr : truthy r = true)
    (hr1 : trimL (r.getD "").data = (r.getD "").data)
    (hr3 : hasSub hh (lc (r.getD "").data) = false) :
    extractSection "Recommendations" (renderFindingBody d e r)
      = some (r.getD "").data := by
  have hrne := truthy_ne_nil r hr
  have hnn : hasSub nlHH (r.getD "").data = false := hasSub_nlHH_of_no_hh _ hr3
  rw [extractSection_eq]
  unfold renderFindingBody
  rw [if_pos hr, show (strL "\n\n" : List Char) = ['\n', '\n'] from rfl]
  simp only [List.append_assoc, List.cons_append, List.nil_append]
  rw [skipA_rec,
      extractGo_skip_var (lc (strL "Recommendations")) d.data _ hd3
        (g1_of_nl _) (g2_of_nl _),
      extractGo_skip_nl2]
  by_cases he : truthy e = true
  · rw [if_pos he]
    simp only [List.append_assoc, List.cons_append, List.nil_append]
    rw [skipEH_rec,
        extractGo_skip_var (lc (strL "Recommendations")) (e.getD "").data _ (he3 he)
          (g1_of_nl _) (g2_of_nl _),
        extractGo_skip_nl2]
    exact extractRec_found_general (r.getD "").data hr1 hrne hnn
  · rw [if_neg he]
    simp only [List.nil_append]
    exact extractRec_found_general (r.getD "").data hr1 hrne hnn

theorem extractSection_rec_none (d : String) (e r : Option String)
    (hd3 : hasSub hh (lc d.data) = false)
    (he3 : truthy e = true → hasSub hh (lc (e.getD "").data) = false)
    (hr : truthy r = false) :
    extractSection "Recommendations" (renderFindingBody d e r) = none := by
  rw [extractSection_eq]
  unfold renderFindingBody
  rw [if_neg (show ¬ truthy r = true from by simp [hr]),
      show (strL "\n\n" : List Char) = ['\n', '\n'] from rfl]
  simp only [List.append_assoc, List.cons_append, List.nil_append, List.append_nil]
  rw [skipA_rec,
      extractGo_skip_var (lc (strL "Recommendations")) d.data _ hd3
        (g1_of_nl _) (g2_of_nl _),
      extractGo_skip_nl2]
  by_cases he : truthy e = true
  · rw [if_pos he]
    rw [skipEH_rec,
        extractGo_skip_var (lc (strL "Recommendations")) (e.getD "").data _ (he3 he)
          (g1_of_nl _) (g2_of_nl _),
        extractGo_skip_nl2]
    rfl
  · rw [if_neg he]
    rfl

end MCPSR

namespace MCPSR

theorem roundtrip_write (s : StorageState) (p : String) (F : Finding)
    (idx : IndexData) (m : ProjectMetadata) (d : ProjectDir) (files : List FFile)
    (hsan : sanitizeProjectName p = p) (hci : s.indexCache = some idx)
    (hm : lookupIdx idx.projects p = some m) (hst : m.status ≠ .completed)
    (hd : lookupDir s.dirs p = some d) (hfd : d.findingsDir = some files)
    (hnew : findFile files (F.id ++ ".md") = none)
    (hde : trimL F.description.data = F.description.data)
    (hdn : F.description.data ≠ [])
    (hdh : hasSub hh (lc F.description.data) = false)
    (het : truthy F.evidence = true →
      trimL (F.evidence.getD "").data = (F.evidence.getD "").data ∧
      hasSub hh (lc (F.evidence.getD "").data) = false)
    (hrt : truthy F.recommendations = true →
      trimL (F.recommendations.getD "").data = (F.recommendations.getD "").data ∧
      hasSub hh (lc (F.recommendations.getD "").data) = false) :
    ∃ s1 s2, createFindingWrite s p F = (s1, .ok F) ∧
      getFinding s1 p F.id = (s2, .ok
        { F with
            evidence := if truthy F.evidence then F.evidence else none,
            recommendations :=
              if truthy F.recommendations then F.recommendations else none }) := by
  obtain ⟨s1, heq, hcache, hfile, d1, hld1, hfd1⟩ :=
    createFindingWrite_ok s p F idx m d files hsan hci hm hst hd hfd hnew
  refine ⟨s1, { s1 with indexCache := some { projects := setIdx idx.projects p (applyProjectUpdates m {} s.now), lastActive := idx.lastActive } }, heq, ?_⟩
  have hgf := getFinding_found_uncached s1 p F.id
    { projects := setIdx idx.projects p (applyProjectUpdates m {} s.now),
      lastActive := idx.lastActive }
    (applyProjectUpdates m {} s.now) d1 (files ++ [findingFileOf F s.now])
    (findingFileOf F s.now) hsan hcache hfile (lookupIdx_setIdx _ _ _)
    hld1 hfd1 (findFile_append_new files _ (findingFileOf F s.now) hnew rfl)
  rw [hgf]
  have hmk : ∀ t : String, String.mk t.data = t := fun _ => rfl
  simp only [findingFileOf, findingFrontOf]
  rw [extractSection_description F.description F.evidence F.recommendations hde hdn hdh]
  by_cases hev : truthy F.evidence = true
  · rw [extractSection_evidence_some F.description F.evidence F.recommendations hdh hev
        (het hev).1 (het hev).2, if_pos hev]
    by_cases hrc : truthy F.recommendations = true
    · rw [extractSection_rec_some F.description F.evidence F.recommendations hdh
          (fun h => (het h).2) hrc (hrt hrc).1 (hrt hrc).2, if_pos hrc]
      simp only [Option.map_some', Option.getD_some, hmk, truthy_getD _ hev,
        truthy_getD _ hrc]
    · rw [extractSection_rec_none F.description F.evidence F.recommendations hdh
          (fun h => (het h).2) (by simpa using hrc), if_neg hrc]
      simp only [Option.map_some', Option.map_none', Option.getD_some, hmk,
        truthy_getD _ hev]
  · rw [extractSection_evidence_none F.description F.evidence F.recommendations hdh
        (by simpa using hev) (fun h => (hrt h).2), if_neg hev]
    by_cases hrc : truthy F.recommendations = true
    · rw [extractSection_rec_some F.description F.evidence F.recommendations hdh
          (fun h => (het h).2) hrc (hrt hrc).1 (hrt hrc).2, if_pos hrc]
      simp only [Option.map_some', Option.map_none', Option.getD_some, hmk,
        truthy_getD _ hrc]
    · rw [extractSection_rec_none F.description F.evidence F.recommendations hdh
          (fun h => (het h).2) (by simpa using hrc), if_neg hrc]
      simp only [Option.map_some', Option.map_none', Option.getD_some, hmk]

end MCPSR

namespace MCPSR

/-- C2 (amended): for a schema-valid input whose description is nonempty,
trim-fixed and free of the `## ` section marker, whose present optional
sections are likewise trim-fixed and marker-free, and whose CVSS vector (if
any) is either empty or accepted by the evaluator, `createFinding` followed
by `getFinding` on the returned id reproduces every field of the created
finding, except that untruthy optional sections (absent or empty-string)
come back absent rather than as empty strings. -/
theorem c2_roundtrip
    (ext : String → Option Nat) (rh : String) (s : StorageState) (p : String)
    (input : FindingInput) (idx : IndexData) (m : ProjectMetadata)
    (d : ProjectDir) (files : List FFile)
    (hsan : sanitizeProjectName p = p) (hci : s.indexCache = some idx)
    (hm : lookupIdx idx.projects p = some m) (hst : m.status ≠ .completed)
    (hd : lookupDir s.dirs p = some d) (hfd : d.findingsDir = some files)
    (hnew : findFile files (sanitizeFindingId rh input.title ++ ".md") = none)
    (hde : trimL input.description.data = input.description.data)
    (hdn : input.description.data ≠ [])
    (hdh : hasSub hh (lc input.description.data) = false)
    (het : truthy input.evidence = true →
      trimL (input.evidence.getD "").data = (input.evidence.getD "").data ∧
      hasSub hh (lc (input.evidence.getD "").data) = false)
    (hrt : truthy input.recommendations = true →
      trimL (input.recommendations.getD "").data
          = (input.recommendations.getD "").data ∧
      hasSub hh (lc (input.recommendations.getD "").data) = false)
    (hvec : ∀ v, input.cvssString = some v →
      v = "" ∨ ∃ sc, calculateCVSSScore ext v = some sc) :
    ∃ s1 s2 F,
      createFinding ext rh s p input = (s1, .ok F) ∧
      F.title = input.title ∧ F.severity = input.severity ∧ F.cwe = input.cwe ∧
      F.cvssString = input.cvssString ∧ F.components = input.components ∧
      F.description = input.description ∧ F.evidence = input.evidence ∧
      F.recommendations = input.recommendations ∧
      getFinding s1 p F.id = (s2, .ok
        { F with
            evidence := if truthy input.evidence then input.evidence else none,
            recommendations :=
              if truthy input.recommendations then input.recommendations else none }) := by
  rcases hcv : input.cvssString with _ | v
  · obtain ⟨s1, s2, hw, hg⟩ := roundtrip_write s p { id := sanitizeFindingId rh input.title, title := input.title, severity := input.severity, cwe := input.cwe, cvssString := none, cvssScore := none, components := input.components, description := input.description, evidence := input.evidence, recommendations := input.recommendations, created := s.now, updated := s.now } idx m d files hsan hci hm hst hd hfd hnew hde hdn hdh het hrt
    have hpath : createFinding ext rh s p input = createFindingWrite s p { id := sanitizeFindingId rh input.title, title := input.title, severity := input.severity, cwe := input.cwe, cvssString := none, cvssScore := none, components := input.components, description := input.description, evidence := input.evidence, recommendations := input.recommendations, created := s.now, updated := s.now } := by
      unfold createFinding
      rw [getProject_cached s p idx m hsan hci hm]
      dsimp only
      rw [checkNotCompleted_ok s p "create finding" idx m hsan hci hm hst]
      dsimp only
      rw [hcv]
    exact ⟨s1, s2, { id := sanitizeFindingId rh input.title, title := input.title, severity := input.severity, cwe := input.cwe, cvssString := none, cvssScore := none, components := input.components, description := input.description, evidence := input.evidence, recommendations := input.recommendations, created := s.now, updated := s.now }, by rw [hpath]; exact hw, rfl, rfl, rfl, rfl, rfl, rfl, rfl, rfl, hg⟩
  · rcases hvec v hcv with hv0 | ⟨sc, hsc⟩
    · subst hv0
      obtain ⟨s1, s2, hw, hg⟩ := roundtrip_write s p { id := sanitizeFindingId rh input.title, title := input.title, severity := input.severity, cwe := input.cwe, cvssString := some "", cvssScore := none, components := input.components, description := input.description, evidence := input.evidence, recommendations := input.recommendations, created := s.now, updated := s.now } idx m d files hsan hci hm hst hd hfd hnew hde hdn hdh het hrt
      have hpath : createFinding ext rh s p input = createFindingWrite s p { id := sanitizeFindingId rh input.title, title := input.title, severity := input.severity, cwe := input.cwe, cvssString := some "", cvssScore := none, components := input.components, description := input.description, evidence := input.evidence, recommendations := input.recommendations, created := s.now, updated := s.now } := by
        unfold createFinding
        rw [getProject_cached s p idx m hsan hci hm]
        dsimp only
        rw [checkNotCompleted_ok s p "create finding" idx m hsan hci hm hst]
        dsimp only
        rw [hcv]
        dsimp only
        rw [if_pos rfl]
      exact ⟨s1, s2, { id := sanitizeFindingId rh input.title, title := input.title, severity := input.severity, cwe := input.cwe, cvssString := some "", cvssScore := none, components := input.components, description := input.description, evidence := input.evidence, recommendations := input.recommendations, created := s.now, updated := s.now }, by rw [hpath]; exact hw, rfl, rfl, rfl, rfl, rfl, rfl, rfl, rfl, hg⟩
    · have hvne : ¬ (v = "") := by
        intro h0
        rw [h0] at hsc
        rw [show calculateCVSSScore ext "" = none from rfl] at hsc
        exact Option.noConfusion hsc
      obtain ⟨s1, s2, hw, hg⟩ := roundtrip_write s p { id := sanitizeFindingId rh input.title, title := input.title, severity := input.severity, cwe := input.cwe, cvssString := some v, cvssScore := some sc, components := input.components, description := input.description, evidence := input.evidence, recommendations := input.recommendations, created := s.now, updated := s.now } idx m d files hsan hci hm hst hd hfd hnew hde hdn hdh het hrt
      have hpath : createFinding ext rh s p input = createFindingWrite s p { id := sanitizeFindingId rh input.title, title := input.title, severity := input.severity, cwe := input.cwe, cvssString := some v, cvssScore := some sc, components := input.components, description := input.description, evidence := input.evidence, recommendations := input.recommendations, created := s.now, updated := s.now } := by
        unfold createFinding
        rw [getProject_cached s p idx m hsan hci hm]
        dsimp only
        rw [checkNotCompleted_ok s p "create finding" idx m hsan hci hm hst]
        dsimp only
        rw [hcv]
        dsimp only
        rw [if_neg hvne, hsc]
      exact ⟨s1, s2, { id := sanitizeFindingId rh input.title, title := input.title, severity := input.severity, cwe := input.cwe, cvssString := some v, cvssScore := some sc, components := input.components, description := input.description, evidence := input.evidence, recommendations := input.recommendations, created := s.now, updated := s.now }, by rw [hpath]; exact hw, rfl, rfl, rfl, rfl, rfl, rfl, rfl, rfl, hg⟩

end MCPSR

namespace MCPSR

/-- C2 counterexample to the original claim: the schema-valid description
`"a "` (1..5000 characters) is written verbatim but comes back trimmed to
`"a"` from `getFinding`, so the round trip is not field-for-field equal. -/
theorem c2_counterexample :
    cex2Input.description = "a " ∧
    (createFinding (fun _ => none) "deadbeef" pState "proj" cex2Input).2.map
        (fun F => F.description) = .ok "a " ∧
    (getFinding (createFinding (fun _ => none) "deadbeef" pState "proj" cex2Input).1
        "proj" (sanitizeFindingId "deadbeef" "T")).2.map (fun F => F.description)
      = .ok "a" := by
  refine ⟨rfl, ?_, ?_⟩
  · decide
  · decide

/-- C2 witness: a concrete well-behaved input (all three sections present,
trim-fixed, marker-free) round-trips on the one-project store. -/
theorem c2_roundtrip_witness :
    ∃ s1 s2 F,
      createFinding (fun _ => none) "deadbeef" pState "proj" w2Input = (s1, .ok F) ∧
      F.title = w2Input.title ∧ F.severity = w2Input.severity ∧
      F.cwe = w2Input.cwe ∧ F.cvssString = w2Input.cvssString ∧
      F.components = w2Input.components ∧ F.description = w2Input.description ∧
      F.evidence = w2Input.evidence ∧ F.recommendations = w2Input.recommendations ∧
      getFinding s1 "proj" F.id = (s2, .ok
        { F with
            evidence := if truthy w2Input.evidence then w2Input.evidence else none,
            recommendations :=
              if truthy w2Input.recommendations then w2Input.recommendations
              else none }) :=
  c2_roundtrip (fun _ => none) "deadbeef" pState "proj" w2Input projIdx
    metaInProgress ⟨"proj", some metaInProgress, some [], some []⟩ []
    (by decide) rfl (by decide) (by decide) rfl rfl rfl
    (by decide) (by decide) (by decide)
    (fun _ => ⟨by decide, by decide⟩) (fun _ => ⟨by decide, by decide⟩)
    (fun v hv => nomatch hv)

end MCPSR
